import Mathlib

/-!
# ACCPgm01: a row-major 2D array behind a row-pointer handle

Shallow embedding of `ACCPgm01.cpp` (`Create2DArray`, `GetRows`, `GetCols`,
`Delete2DArray`, `main`) over an explicit heap.

* The heap is a list of blocks; a block identifier is a position in that list and is
  never reused. A block is either an array of `double *` slots or an array of `double`
  elements. A cell of a fresh array is indeterminate (`none`) until it is stored to.
* `operator new[]` may fail: the heap carries the list of outcomes of the allocation
  requests still to come. The allocator is otherwise unconstrained: a request of any
  size, zero included, may be granted.
* `size_t` arithmetic is arithmetic on `Nat` reduced modulo `2 ^ sizeBits`; the width
  of `size_t` and the width of `int` are parameters (`Platform`).
* A new-expression throws, without asking the allocator, when the size of the array in
  bytes is not a value of `size_t`.
* The address of an element is a block together with an offset counted in elements.
  Arithmetic on such an address wraps as the machine address does: modulo
  `2 ^ sizeBits` bytes, that is modulo `2 ^ sizeBits / 8` elements. Forming an address
  makes no access and is never checked; every load, store and `delete[]` is checked.
  An access outside a live block, or a load of an indeterminate cell, is
  `Outcome.undefined`.
* Loops run on a budget of condition tests (`fuel`); `Outcome.timeout` reports an
  exhausted budget.
-/

namespace ACCPgm01

/-- Widths of the machine types the program depends on: `sizeBits` is the width of
`size_t` and of an object pointer, `intBits` the width of `int`. -/
structure Platform where
  sizeBits : Nat
  intBits : Nat
deriving DecidableEq, Repr

/-- The number of values of `size_t`; `size_t` arithmetic is taken modulo this. -/
def Platform.sizeMod (P : Platform) : Nat := 2 ^ P.sizeBits

/-- The size of a `double` in bytes. -/
def sizeofDouble : Nat := 8

/-- The size of a `double *` in bytes. -/
def Platform.sizeofPtr (P : Platform) : Nat := P.sizeBits / 8

/-- The number of `double`-sized steps after which a machine address is back where it
started: element offsets are taken modulo this. -/
def Platform.elemMod (P : Platform) : Nat := P.sizeMod / sizeofDouble

/-- The conversion `(int)` applied to a word: the low `intBits` bits, read in two's
complement. -/
def Platform.toInt (P : Platform) (n : Nat) : Int :=
  if n % 2 ^ P.intBits < 2 ^ (P.intBits - 1) then ((n % 2 ^ P.intBits : Nat) : Int)
  else ((n % 2 ^ P.intBits : Nat) : Int) - ((2 ^ P.intBits : Nat) : Int)

/-- A value of type `double *`: either an integer converted to a pointer, as in
`(double *)rows`, or the address of element `off` of the element block `blk`. -/
inductive Ptr where
  | raw (n : Nat)
  | elem (blk off : Nat)
deriving DecidableEq, Repr

/-- A value of type `double **`: `NULL`, or the address of slot `off` of the slot
block `blk`. -/
inductive Handle where
  | null
  | slot (blk off : Nat)
deriving DecidableEq, Repr

/-- A heap block: the result of `new double *[n]` or of `new double[n]`. -/
inductive Block (D : Type) where
  | slots (cells : List (Option Ptr))
  | doubles (cells : List (Option D))
deriving DecidableEq, Repr

/-- The heap: `blocks[b]` is `some blk` while block `b` is allocated and `none` once
it has been released; `oracle` lists the outcomes (`true` = success) of the allocation
requests still to come, an exhausted list meaning that memory is exhausted. -/
structure Heap (D : Type) where
  blocks : List (Option (Block D))
  oracle : List Bool
deriving DecidableEq, Repr

/-- The identifiers of the blocks that are currently allocated, in increasing order. -/
def Heap.live {D : Type} (h : Heap D) : List Nat :=
  (List.range h.blocks.length).filter fun b => (h.blocks[b]?).join.isSome

/-- Result of running a piece of the program from a heap: normal completion with a
value and the new heap, a `std::bad_alloc` exception in flight (with the heap at the
point of the throw), undefined behaviour, or an exhausted loop budget. -/
inductive Outcome (D : Type) (α : Type) where
  | ok (a : α) (h : Heap D)
  | thrown (h : Heap D)
  | undefined
  | timeout
deriving DecidableEq, Repr

/-- Sequencing: continue with `f` after normal completion, propagate everything else. -/
def Outcome.bind {D α β : Type} (o : Outcome D α) (f : α → Heap D → Outcome D β) :
    Outcome D β :=
  match o with
  | Outcome.ok a h => f a h
  | Outcome.thrown h => Outcome.thrown h
  | Outcome.undefined => Outcome.undefined
  | Outcome.timeout => Outcome.timeout

/-- The expression `new double *[n]`. It throws (`bad_array_new_length`, which is a
`bad_alloc`) without asking the allocator when `n * sizeof(double *)` is not a value of
`size_t`; it throws `bad_alloc` when the allocator refuses; otherwise it yields the
address of slot 0 of a fresh block of `n` indeterminate slots. -/
def newPtrArray {D : Type} (P : Platform) (n : Nat) (h : Heap D) : Outcome D Handle :=
  if P.sizeMod ≤ n * P.sizeofPtr then Outcome.thrown h
  else
    match h.oracle with
    | true :: rest =>
      Outcome.ok (Handle.slot h.blocks.length 0)
        ⟨h.blocks ++ [some (Block.slots (List.replicate n none))], rest⟩
    | false :: rest => Outcome.thrown ⟨h.blocks, rest⟩
    | [] => Outcome.thrown h

/-- The expression `new double[n]`, with the same three outcomes. -/
def newDoubleArray {D : Type} (P : Platform) (n : Nat) (h : Heap D) : Outcome D Ptr :=
  if P.sizeMod ≤ n * sizeofDouble then Outcome.thrown h
  else
    match h.oracle with
    | true :: rest =>
      Outcome.ok (Ptr.elem h.blocks.length 0)
        ⟨h.blocks ++ [some (Block.doubles (List.replicate n none))], rest⟩
    | false :: rest => Outcome.thrown ⟨h.blocks, rest⟩
    | [] => Outcome.thrown h

/-- Pointer arithmetic `ara + k` on a `double **`. The slot offset is kept as it is: the
program uses such an address only for checked accesses, and a block that `newPtrArray`
returns is smaller than the address space, so its slots have distinct addresses. -/
def Handle.add {D : Type} (ara : Handle) (k : Nat) (h : Heap D) : Outcome D Handle :=
  match ara with
  | Handle.null => Outcome.undefined
  | Handle.slot b off => Outcome.ok (Handle.slot b (off + k)) h

/-- Pointer arithmetic `ara - k` on a `double **`; there is no address before the
start of a block. -/
def Handle.sub {D : Type} (ara : Handle) (k : Nat) (h : Heap D) : Outcome D Handle :=
  match ara with
  | Handle.null => Outcome.undefined
  | Handle.slot b off => if k ≤ off then Outcome.ok (Handle.slot b (off - k)) h
                         else Outcome.undefined

/-- Pointer arithmetic `ara + i` with a signed `i`. -/
def Handle.index {D : Type} (ara : Handle) (i : Int) (h : Heap D) : Outcome D Handle :=
  match i with
  | Int.ofNat n => Handle.add ara n h
  | Int.negSucc n => Handle.sub ara (n + 1) h

/-- The load `ara[i]` from a `double **`. -/
def loadSlot {D : Type} (ara : Handle) (i : Nat) (h : Heap D) : Outcome D Ptr :=
  match ara with
  | Handle.null => Outcome.undefined
  | Handle.slot b off =>
    match h.blocks[b]? with
    | some (some (Block.slots cells)) =>
      match cells[off + i]? with
      | some (some v) => Outcome.ok v h
      | _ => Outcome.undefined
    | _ => Outcome.undefined

/-- The store `ara[i] = v` through a `double **`. -/
def storeSlot {D : Type} (ara : Handle) (i : Nat) (v : Ptr) (h : Heap D) : Outcome D Unit :=
  match ara with
  | Handle.null => Outcome.undefined
  | Handle.slot b off =>
    match h.blocks[b]? with
    | some (some (Block.slots cells)) =>
      if off + i < cells.length then
        Outcome.ok () ⟨h.blocks.set b (some (Block.slots (cells.set (off + i) (some v)))),
          h.oracle⟩
      else Outcome.undefined
    | _ => Outcome.undefined

/-- The address `&p[k]`, that is `p + k`, for a `double *` and an unsigned `k`. No
access is made, so the address is formed whether or not it lies inside the block; the
machine address `p + k * sizeof(double)` wraps modulo `2 ^ sizeBits`, so the element
offset wraps modulo `elemMod`. -/
def Ptr.add {D : Type} (P : Platform) (p : Ptr) (k : Nat) (h : Heap D) : Outcome D Ptr :=
  match p with
  | Ptr.raw _ => Outcome.undefined
  | Ptr.elem b off => Outcome.ok (Ptr.elem b ((off + k) % P.elemMod)) h

/-- The address `p + i` for a `double *` and a signed `i`, wrapping in the same way;
going down by `n + 1` elements is going up by `elemMod - (n + 1) % elemMod`. -/
def Ptr.index {D : Type} (P : Platform) (p : Ptr) (i : Int) (h : Heap D) : Outcome D Ptr :=
  match p, i with
  | Ptr.raw _, _ => Outcome.undefined
  | Ptr.elem b off, Int.ofNat n => Outcome.ok (Ptr.elem b ((off + n) % P.elemMod)) h
  | Ptr.elem b off, Int.negSucc n =>
    Outcome.ok (Ptr.elem b ((off + (P.elemMod - (n + 1) % P.elemMod)) % P.elemMod)) h

/-- The difference `p - q` of two `double *` into one block, counted in elements. -/
def Ptr.diff : Ptr → Ptr → Option Int
  | Ptr.elem b off, Ptr.elem b' off' =>
    if b = b' then some ((off : Int) - (off' : Int)) else none
  | _, _ => none

/-- The load `*p` from a `double *`. -/
def loadDouble {D : Type} (p : Ptr) (h : Heap D) : Outcome D D :=
  match p with
  | Ptr.raw _ => Outcome.undefined
  | Ptr.elem b off =>
    match h.blocks[b]? with
    | some (some (Block.doubles cells)) =>
      match cells[off]? with
      | some (some v) => Outcome.ok v h
      | _ => Outcome.undefined
    | _ => Outcome.undefined

/-- The store `*p = v` through a `double *`. -/
def storeDouble {D : Type} (p : Ptr) (v : D) (h : Heap D) : Outcome D Unit :=
  match p with
  | Ptr.raw _ => Outcome.undefined
  | Ptr.elem b off =>
    match h.blocks[b]? with
    | some (some (Block.doubles cells)) =>
      if off < cells.length then
        Outcome.ok () ⟨h.blocks.set b (some (Block.doubles (cells.set off (some v)))),
          h.oracle⟩
      else Outcome.undefined
    | _ => Outcome.undefined

/-- The statement `delete[] p` for a `double *`: a no-op on the null pointer, the release
of the block when `p` is the address that `new double[n]` returned, undefined otherwise. -/
def deleteDoubleArray {D : Type} (p : Ptr) (h : Heap D) : Outcome D Unit :=
  match p with
  | Ptr.raw n => if n = 0 then Outcome.ok () h else Outcome.undefined
  | Ptr.elem b off =>
    match h.blocks[b]? with
    | some (some (Block.doubles _)) =>
      if off = 0 then Outcome.ok () ⟨h.blocks.set b none, h.oracle⟩ else Outcome.undefined
    | _ => Outcome.undefined

/-- The statement `delete[] ara` for a `double **`. -/
def deletePtrArray {D : Type} (ara : Handle) (h : Heap D) : Outcome D Unit :=
  match ara with
  | Handle.null => Outcome.ok () h
  | Handle.slot b off =>
    match h.blocks[b]? with
    | some (some (Block.slots _)) =>
      if off = 0 then Outcome.ok () ⟨h.blocks.set b none, h.oracle⟩ else Outcome.undefined
    | _ => Outcome.undefined

/-- The conversion `(int)p` of a `double *`. A slot that holds a converted integer gives
that integer back, narrowed to `int`; the numeric value of a genuine address is not
represented in this model. -/
def ptrToInt {D : Type} (P : Platform) (p : Ptr) (h : Heap D) : Outcome D Int :=
  match p with
  | Ptr.raw n => Outcome.ok (P.toInt n) h
  | Ptr.elem _ _ => Outcome.undefined

/-- The loop of `Create2DArray`,
`for (size_t index = 1, offset = cols; index < rows; index++, offset += cols)
   ara[index] = &ara[0][offset];`
run from the loop state `(index, offset)` with a budget of `fuel` condition tests. The
value returned counts the executions of the body, starting from `iters`. -/
def rowLoop {D : Type} (P : Platform) (rows cols : Nat) (ara : Handle) :
    Nat → Nat → Nat → Nat → Heap D → Outcome D Nat
  | 0, _, _, _, _ => Outcome.timeout
  | fuel + 1, index, offset, iters, h =>
    if index < rows then
      (loadSlot ara 0 h).bind fun base h =>
      (Ptr.add P base offset h).bind fun row h =>
      (storeSlot ara index row h).bind fun _ h =>
      rowLoop P rows cols ara fuel ((index + 1) % P.sizeMod) ((offset + cols) % P.sizeMod)
        (iters + 1) h
    else Outcome.ok iters h

/-- The `try` block of `Create2DArray` from its first statement up to the loop: the
test of the arguments, the allocation of the index block, the two hidden slots, the
advance of `ara`, and the allocation of the storage block into `ara[0]`. -/
def Create2DArray_setup {D : Type} (P : Platform) (rows cols : Nat) (h : Heap D) :
    Outcome D Handle :=
  if rows = 0 ∨ cols = 0 then Outcome.thrown h
  else
    (newPtrArray P ((rows + 2) % P.sizeMod) h).bind fun ara h =>
    (storeSlot ara 0 (Ptr.raw rows) h).bind fun _ h =>
    (storeSlot ara 1 (Ptr.raw cols) h).bind fun _ h =>
    (Handle.add ara 2 h).bind fun ara h =>
    (newDoubleArray P ((rows * cols) % P.sizeMod) h).bind fun buf h =>
    (storeSlot ara 0 buf h).bind fun _ h =>
    Outcome.ok ara h

/-- The whole `try` block of `Create2DArray`: the statements before the loop, the
loop, and `return ara`. -/
def Create2DArray_try {D : Type} (P : Platform) (fuel rows cols : Nat) (h : Heap D) :
    Outcome D Handle :=
  (Create2DArray_setup P rows cols h).bind fun ara h =>
  (rowLoop P rows cols ara fuel 1 cols 0 h).bind fun _ h =>
  Outcome.ok ara h

/-- `double **Create2DArray(size_t rows, size_t cols)`: the `try` block, with
`catch (bad_alloc)` turning the exception into the return of `NULL`. -/
def Create2DArray {D : Type} (P : Platform) (fuel rows cols : Nat) (h : Heap D) :
    Outcome D Handle :=
  match Create2DArray_try P fuel rows cols h with
  | Outcome.thrown h1 => Outcome.ok Handle.null h1
  | o => o

/-- `int GetRows(double **ara)`: `return (int)(*(ara - 2));`. -/
def GetRows {D : Type} (P : Platform) (ara : Handle) (h : Heap D) : Outcome D Int :=
  (Handle.sub ara 2 h).bind fun p h =>
  (loadSlot p 0 h).bind fun v h =>
  ptrToInt P v h

/-- `int GetCols(double **ara)`: `return (int)(*(ara - 1));`. -/
def GetCols {D : Type} (P : Platform) (ara : Handle) (h : Heap D) : Outcome D Int :=
  (Handle.sub ara 1 h).bind fun p h =>
  (loadSlot p 0 h).bind fun v h =>
  ptrToInt P v h

/-- `void Delete2DArray(double **ara)`:
`delete[] *ara; ara -= 2; delete[] ara;`. -/
def Delete2DArray {D : Type} (ara : Handle) (h : Heap D) : Outcome D Unit :=
  (loadSlot ara 0 h).bind fun buf h =>
  (deleteDoubleArray buf h).bind fun _ h =>
  (Handle.sub ara 2 h).bind fun ara h =>
  deletePtrArray ara h

/-- The address `&dAra[row][col]` that an element access of a caller uses: the row
pointer `dAra[row]` is loaded and `col` is added to it. -/
def elemAddr {D : Type} (P : Platform) (dAra : Handle) (row col : Int) (h : Heap D) :
    Outcome D Ptr :=
  (Handle.index dAra row h).bind fun r h =>
  (loadSlot r 0 h).bind fun p h =>
  Ptr.index P p col h

/-- The assignment `dAra[row][col] = v` of a caller. -/
def storeElem {D : Type} (P : Platform) (dAra : Handle) (row col : Int) (v : D)
    (h : Heap D) : Outcome D Unit :=
  (elemAddr P dAra row col h).bind fun q h =>
  storeDouble q v h

/-- The read `dAra[row][col]` of a caller. -/
def loadElem {D : Type} (P : Platform) (dAra : Handle) (row col : Int) (h : Heap D) :
    Outcome D D :=
  (elemAddr P dAra row col h).bind fun q h =>
  loadDouble q h

/-- A sequence of assignments `dAra[row][col] = v`, performed in order. -/
def storeElems {D : Type} (P : Platform) (dAra : Handle) :
    List (Int × Int × D) → Heap D → Outcome D Unit
  | [], h => Outcome.ok () h
  | (row, col, v) :: ws, h =>
    (storeElem P dAra row col v h).bind fun _ h => storeElems P dAra ws h

/-- The value part of an outcome, when the run completed normally. -/
def Outcome.value? {D α : Type} : Outcome D α → Option α
  | Outcome.ok a _ => some a
  | _ => none

/-- What `main` sends to `cout` and `cerr`, one item per `<<`. -/
inductive Out where
  | cout_str (s : String)
  | cout_int (n : Int)
  | cout_double (x : Int)
  | cout_char (c : Char)
  | cout_endl
  | cerr_str (s : String)
  | cerr_endl
deriving DecidableEq, Repr

/-- The inner loop of the first loop nest of `main`,
`for (int col = 0; col < GetCols(dAra); col++) dAra[row][col] = (row * 10.0) + (double)col;`.
The doubles that `main` computes are the integers `row * 10 + col`, which binary64
represents and adds exactly; they are modelled by these integers. The counter stays
below the `int` that `GetCols` returned, so `col++` cannot overflow. -/
def fillCols (P : Platform) (dAra : Handle) (row : Int) :
    Nat → Int → Heap Int → Outcome Int Unit
  | 0, _, _ => Outcome.timeout
  | fuel + 1, col, h =>
    (GetCols P dAra h).bind fun n h =>
    if col < n then
      (storeElem P dAra row col (row * 10 + col) h).bind fun _ h =>
      fillCols P dAra row fuel (col + 1) h
    else Outcome.ok () h

/-- The outer loop of the first loop nest of `main`,
`for (int row = 0; row < GetRows(dAra); row++) ...`; `inner` is the budget of each run
of the inner loop. -/
def fillRows (P : Platform) (dAra : Handle) (inner : Nat) :
    Nat → Int → Heap Int → Outcome Int Unit
  | 0, _, _ => Outcome.timeout
  | fuel + 1, row, h =>
    (GetRows P dAra h).bind fun n h =>
    if row < n then
      (fillCols P dAra row inner 0 h).bind fun _ h =>
      fillRows P dAra inner fuel (row + 1) h
    else Outcome.ok () h

/-- The inner loop of the second loop nest of `main`,
`for (int col = 0; col < GetCols(dAra); col++) cout << dAra[row][col] << ' ';`, which
extends the output `out`. -/
def showCols (P : Platform) (dAra : Handle) (row : Int) :
    Nat → Int → List Out → Heap Int → Outcome Int (List Out)
  | 0, _, _, _ => Outcome.timeout
  | fuel + 1, col, out, h =>
    (GetCols P dAra h).bind fun n h =>
    if col < n then
      (loadElem P dAra row col h).bind fun x h =>
      showCols P dAra row fuel (col + 1) (out ++ [Out.cout_double x, Out.cout_char ' ']) h
    else Outcome.ok out h

/-- The outer loop of the second loop nest of `main`: one run of the inner loop, then
`cout << endl;`, per row. -/
def showRows (P : Platform) (dAra : Handle) (inner : Nat) :
    Nat → Int → List Out → Heap Int → Outcome Int (List Out)
  | 0, _, _, _ => Outcome.timeout
  | fuel + 1, row, out, h =>
    (GetRows P dAra h).bind fun n h =>
    if row < n then
      (showCols P dAra row inner 0 out h).bind fun out h =>
      showRows P dAra inner fuel (row + 1) (out ++ [Out.cout_endl]) h
    else Outcome.ok out h

/-- `int main(void)`: the value is the exit status together with the output. Every loop
of the program gets the budget `fuel`. -/
def main (P : Platform) (fuel : Nat) (h : Heap Int) : Outcome Int (Int × List Out) :=
  (Create2DArray P fuel 12 9 h).bind fun dAra h =>
  if dAra = Handle.null then
    Outcome.ok (1, [Out.cerr_str "Could not allocate memory.", Out.cerr_endl]) h
  else
    (GetRows P dAra h).bind fun r h =>
    (GetCols P dAra h).bind fun c h =>
    (fillRows P dAra fuel fuel 0 h).bind fun _ h =>
    (showRows P dAra fuel fuel 0
      [Out.cout_str "dAra created.", Out.cout_endl,
       Out.cout_str "Rows: ", Out.cout_int r, Out.cout_endl,
       Out.cout_str "Cols: ", Out.cout_int c, Out.cout_endl] h).bind fun out h =>
    (Delete2DArray dAra h).bind fun _ h =>
    Outcome.ok (0, out) h

/-- The row addresses `base + i * cols`, `i < k`, as the loop of `Create2DArray`
computes them: the offset is accumulated in `size_t`, then the address wraps. -/
def rowPtrs (P : Platform) (cols sto k : Nat) : List (Option Ptr) :=
  (List.range k).map fun i => some (Ptr.elem sto (i * cols % P.sizeMod % P.elemMod))

/-- The contents of the index block once the rows below `k` have received their
address: the two hidden slots, `k` row addresses, and the slots still indeterminate. -/
def indexCells (P : Platform) (rows cols sto k : Nat) : List (Option Ptr) :=
  some (Ptr.raw rows) :: some (Ptr.raw cols) ::
    (rowPtrs P cols sto k ++ List.replicate (rows - k) none)

/-- The heap that holds a created array on top of the blocks `pre`: the index block,
then the storage block with contents `S`. -/
def arrayHeap {D : Type} (P : Platform) (pre : List (Option (Block D))) (rows cols : Nat)
    (S : List (Option D)) (orc : List Bool) : Heap D :=
  ⟨pre ++ [some (Block.slots (indexCells P rows cols (pre.length + 1) rows)),
      some (Block.doubles S)], orc⟩

/-- The heap in which `Create2DArray` gives up when the second new-expression throws:
the index block is still allocated, with only its two hidden slots stored. -/
def leakHeap {D : Type} (pre : List (Option (Block D))) (rows cols : Nat)
    (orc : List Bool) : Heap D :=
  ⟨pre ++ [some (Block.slots
      (some (Ptr.raw rows) :: some (Ptr.raw cols) :: List.replicate rows none))], orc⟩

/-- Closed form of `Create2DArray` on `size_t` arguments, by cases on the arguments, on
the sizes of the two arrays, on the answers of the allocator and on the loop budget. -/
def createSpec {D : Type} (P : Platform) (fuel rows cols : Nat) (h : Heap D) :
    Outcome D Handle :=
  if rows = 0 ∨ cols = 0 then Outcome.ok Handle.null h
  else if P.sizeMod ≤ (rows + 2) % P.sizeMod * P.sizeofPtr then Outcome.ok Handle.null h
  else
    match h.oracle with
    | [] => Outcome.ok Handle.null h
    | false :: r => Outcome.ok Handle.null ⟨h.blocks, r⟩
    | true :: r =>
      if P.sizeMod ≤ rows + 2 then Outcome.undefined
      else if P.sizeMod ≤ rows * cols % P.sizeMod * sizeofDouble then
        Outcome.ok Handle.null (leakHeap h.blocks rows cols r)
      else
        match r with
        | [] => Outcome.ok Handle.null (leakHeap h.blocks rows cols [])
        | false :: r2 => Outcome.ok Handle.null (leakHeap h.blocks rows cols r2)
        | true :: r2 =>
          if rows ≤ fuel then
            Outcome.ok (Handle.slot h.blocks.length 2)
              (arrayHeap P h.blocks rows cols
                (List.replicate (rows * cols % P.sizeMod) none) r2)
          else Outcome.timeout

/-- A platform with 32-bit `size_t`, pointers and `int`. -/
def ILP32 : Platform := ⟨32, 32⟩

/-- A platform with 64-bit `size_t` and pointers and 32-bit `int`. -/
def LP64 : Platform := ⟨64, 32⟩

/-- The heap in which `Create2DArray(4, 9223372036854775808)` returns on `LP64`, called
on the empty heap with both allocations granted: `4 * 2^63` wraps to 0 in `size_t`, so
the storage block has no element, and since `2^63` doubles are `2^66` bytes, a multiple
of `2^64`, every row address is the base address. -/
def wrappedHeap : Heap Int :=
  ⟨[some (Block.slots [some (Ptr.raw 4), some (Ptr.raw 9223372036854775808),
      some (Ptr.elem 1 0), some (Ptr.elem 1 0),
      some (Ptr.elem 1 0), some (Ptr.elem 1 0)]),
    some (Block.doubles [])], []⟩

/-- The storage contents `S` hold `row * 10 + col` at every position of the rows below
`r` and at the positions of row `r` below column `c`: the state of the first loop nest
of `main` when it is about to assign position `(r, c)`. -/
def FilledUpTo (cols : Nat) (S : List (Option Int)) (r c : Nat) : Prop :=
  ∀ r' c' : Nat, c' < cols → (r' < r ∨ (r' = r ∧ c' < c)) →
    S[r' * cols + c']? = some (some ((r' : Int) * 10 + (c' : Int)))

/-- What the inner printing loop of `main` emits for row `r` from column `c` on. -/
def rowOutput (cols r c : Nat) : List Out :=
  (List.range' c (cols - c)).flatMap fun col =>
    [Out.cout_double ((r : Int) * 10 + (col : Int)), Out.cout_char ' ']

/-- What the outer printing loop of `main` emits from row `r` on. -/
def gridOutput (rows cols r : Nat) : List Out :=
  (List.range' r (rows - r)).flatMap fun row => rowOutput cols row 0 ++ [Out.cout_endl]

/-! ## Auxiliary lemmas -/

@[simp] theorem Outcome.bind_ok {D α β : Type} (a : α) (h : Heap D)
    (f : α → Heap D → Outcome D β) : (Outcome.ok a h).bind f = f a h := rfl

@[simp] theorem Outcome.bind_thrown {D α β : Type} (h : Heap D)
    (f : α → Heap D → Outcome D β) :
    (Outcome.thrown h : Outcome D α).bind f = Outcome.thrown h := rfl

@[simp] theorem Outcome.bind_undefined {D α β : Type}
    (f : α → Heap D → Outcome D β) :
    (Outcome.undefined : Outcome D α).bind f = Outcome.undefined := rfl

@[simp] theorem Outcome.bind_timeout {D α β : Type}
    (f : α → Heap D → Outcome D β) :
    (Outcome.timeout : Outcome D α).bind f = Outcome.timeout := rfl

theorem getElem?_append_cons_length {α : Type} (pre : List α) (a : α) (tl : List α) :
    (pre ++ a :: tl)[pre.length]? = some a := by
  rw [List.getElem?_append_right (Nat.le_refl _)]
  simp

theorem set_append_cons_length {α : Type} (pre : List α) (a b : α) (tl : List α) :
    (pre ++ a :: tl).set pre.length b = pre ++ b :: tl := by
  simp

theorem getElem?_append_cons_succ {α : Type} (pre : List α) (a x : α) (tl : List α) :
    (pre ++ a :: x :: tl)[pre.length + 1]? = some x := by
  rw [List.getElem?_append_right (by omega)]
  simp

theorem set_append_cons_succ {α : Type} (pre : List α) (a x y : α) (tl : List α) :
    (pre ++ a :: x :: tl).set (pre.length + 1) y = pre ++ a :: y :: tl := by
  rw [List.set_append_right _ _ (by omega)]
  simp

theorem rowPtrs_length (P : Platform) (cols sto k : Nat) :
    (rowPtrs P cols sto k).length = k := by
  simp [rowPtrs]

theorem rowPtrs_succ (P : Platform) (cols sto k : Nat) :
    rowPtrs P cols sto (k + 1)
      = rowPtrs P cols sto k ++ [some (Ptr.elem sto (k * cols % P.sizeMod % P.elemMod))] := by
  simp [rowPtrs, List.range_succ]

theorem indexCells_length (P : Platform) (rows cols sto k : Nat) (hk : k ≤ rows) :
    (indexCells P rows cols sto k).length = rows + 2 := by
  simp [indexCells, rowPtrs_length]
  omega

theorem indexCells_base (P : Platform) (rows cols sto k : Nat) (hk : 1 ≤ k) :
    (indexCells P rows cols sto k)[2]? = some (some (Ptr.elem sto 0)) := by
  obtain ⟨j, rfl⟩ : ∃ j, k = j + 1 := ⟨k - 1, by omega⟩
  simp [indexCells, rowPtrs, List.range_succ_eq_map]

theorem indexCells_set (P : Platform) (rows cols sto k : Nat) (hk : k < rows) :
    (indexCells P rows cols sto k).set (2 + k)
        (some (Ptr.elem sto (k * cols % P.sizeMod % P.elemMod)))
      = indexCells P rows cols sto (k + 1) := by
  obtain ⟨d, hd⟩ : ∃ d, rows - k = d + 1 := ⟨rows - k - 1, by omega⟩
  have hd2 : rows - (k + 1) = d := by omega
  have hlen : (rowPtrs P cols sto k).length ≤ k := by rw [rowPtrs_length]
  simp only [indexCells, hd, hd2, rowPtrs_succ, Nat.add_comm 2 k, List.set_cons_succ]
  rw [List.set_append_right _ _ hlen, rowPtrs_length]
  simp [List.replicate_succ]

theorem loadSlot_at {D : Type} (pre tl : List (Option (Block D))) (cells : List (Option Ptr))
    (orc : List Bool) (off i : Nat) (v : Ptr) (hv : cells[off + i]? = some (some v)) :
    loadSlot (Handle.slot pre.length off) i
        (⟨pre ++ some (Block.slots cells) :: tl, orc⟩ : Heap D)
      = Outcome.ok v ⟨pre ++ some (Block.slots cells) :: tl, orc⟩ := by
  simp only [loadSlot, getElem?_append_cons_length, hv]

theorem storeSlot_at {D : Type} (pre tl : List (Option (Block D)))
    (cells : List (Option Ptr)) (orc : List Bool) (off i : Nat) (v : Ptr)
    (hi : off + i < cells.length) :
    storeSlot (Handle.slot pre.length off) i v
        (⟨pre ++ some (Block.slots cells) :: tl, orc⟩ : Heap D)
      = Outcome.ok () ⟨pre ++ some (Block.slots (cells.set (off + i) (some v))) :: tl, orc⟩ := by
  simp only [storeSlot, getElem?_append_cons_length, hi, if_true, set_append_cons_length]

theorem storeSlot_oob {D : Type} (pre tl : List (Option (Block D)))
    (cells : List (Option Ptr)) (orc : List Bool) (off i : Nat) (v : Ptr)
    (hi : cells.length ≤ off + i) :
    storeSlot (Handle.slot pre.length off) i v
        (⟨pre ++ some (Block.slots cells) :: tl, orc⟩ : Heap D)
      = Outcome.undefined := by
  have : ¬ off + i < cells.length := by omega
  simp only [storeSlot, getElem?_append_cons_length, this, if_false]

theorem rowLoop_eq {D : Type} (P : Platform) (rows cols : Nat) (hr : rows < P.sizeMod)
    (pre tl : List (Option (Block D))) (orc : List Bool) (sto : Nat) :
    ∀ (fuel k it : Nat), 1 ≤ k → k ≤ rows →
      rowLoop P rows cols (Handle.slot pre.length 2) fuel k (k * cols % P.sizeMod) it
          (⟨pre ++ some (Block.slots (indexCells P rows cols sto k)) :: tl, orc⟩ : Heap D)
        = if rows - k < fuel then
            Outcome.ok (it + (rows - k))
              ⟨pre ++ some (Block.slots (indexCells P rows cols sto rows)) :: tl, orc⟩
          else Outcome.timeout := by
  intro fuel
  induction fuel with
  | zero => intro k it _ _; simp [rowLoop]
  | succ n ih =>
    intro k it hk1 hk2
    unfold rowLoop
    by_cases hlt : k < rows
    · have hbase := indexCells_base P rows cols sto k hk1
      have hlen : 2 + k < (indexCells P rows cols sto k).length := by
        rw [indexCells_length P rows cols sto k hk2]; omega
      have hidx : (k + 1) % P.sizeMod = k + 1 := Nat.mod_eq_of_lt (by omega)
      have hoff : (k * cols % P.sizeMod + cols) % P.sizeMod = (k + 1) * cols % P.sizeMod := by
        rw [Nat.mod_add_mod, Nat.succ_mul]
      rw [if_pos hlt, loadSlot_at pre tl _ orc 2 0 _ hbase]
      simp only [Outcome.bind_ok, Ptr.add, Nat.zero_add]
      rw [storeSlot_at pre tl _ orc 2 k _ hlen, indexCells_set P rows cols sto k hlt]
      simp only [Outcome.bind_ok, hidx, hoff]
      rw [ih (k + 1) (it + 1) (by omega) (by omega)]
      have e2 : it + 1 + (rows - (k + 1)) = it + (rows - k) := by omega
      rw [e2]
      by_cases hf : rows - k < n + 1
      · rw [if_pos hf, if_pos (by omega)]
      · rw [if_neg hf, if_neg (by omega)]
    · have hk : k = rows := by omega
      subst hk
      simp
theorem indexCells_one (P : Platform) (rows cols sto : Nat) (hr : 0 < rows) :
    (some (Ptr.raw rows) :: some (Ptr.raw cols) :: List.replicate rows none).set 2
        (some (Ptr.elem sto 0))
      = indexCells P rows cols sto 1 := by
  obtain ⟨d, rfl⟩ : ∃ d, rows = d + 1 := ⟨rows - 1, by omega⟩
  simp [indexCells, rowPtrs, List.replicate_succ, List.range_succ]

theorem Create2DArray_eq {D : Type} (P : Platform) (fuel rows cols : Nat) (h : Heap D)
    (hr : rows < P.sizeMod) (hc : cols < P.sizeMod) :
    Create2DArray P fuel rows cols h = createSpec P fuel rows cols h := by
  obtain ⟨blocks, oracle⟩ := h
  unfold Create2DArray Create2DArray_try Create2DArray_setup createSpec
  by_cases hz : rows = 0 ∨ cols = 0
  · simp [hz]
  · rw [if_neg hz, if_neg hz]
    have hr0 : 0 < rows := by omega
    unfold newPtrArray
    by_cases hbig : P.sizeMod ≤ (rows + 2) % P.sizeMod * P.sizeofPtr
    · simp [hbig]
    · rw [if_neg hbig, if_neg hbig]
      match oracle with
      | [] => simp
      | false :: r => simp
      | true :: r =>
        simp only [Outcome.bind_ok]
        by_cases hov : P.sizeMod ≤ rows + 2
        · rw [if_pos hov]
          have hL : (rows + 2) % P.sizeMod = rows + 2 - P.sizeMod := by
            rw [Nat.mod_eq_sub_mod hov]
            exact Nat.mod_eq_of_lt (by omega)
          by_cases h0 : rows + 2 - P.sizeMod = 0
          · rw [storeSlot_oob blocks [] _ r 0 0 _ (by simp [hL, h0])]
            simp
          · rw [storeSlot_at blocks [] _ r 0 0 _ (by simp [hL]; omega)]
            simp only [Outcome.bind_ok]
            rw [storeSlot_oob blocks [] _ r 0 1 _ (by simp [hL]; omega)]
            simp
        · rw [if_neg hov]
          have hL : (rows + 2) % P.sizeMod = rows + 2 := Nat.mod_eq_of_lt (by omega)
          rw [hL, storeSlot_at blocks [] _ r 0 0 _ (by simp)]
          simp only [Outcome.bind_ok]
          rw [storeSlot_at blocks [] _ r 0 1 _ (by simp)]
          simp only [Outcome.bind_ok, Handle.add, Nat.zero_add, List.replicate_succ,
            List.set_cons_zero, List.set_cons_succ]
          unfold newDoubleArray
          by_cases hbig2 : P.sizeMod ≤ rows * cols % P.sizeMod * sizeofDouble
          · simp [hbig2, leakHeap]
          · rw [if_neg hbig2, if_neg hbig2]
            match r with
            | [] => simp [leakHeap]
            | false :: r2 => simp [leakHeap]
            | true :: r2 =>
              simp only [Outcome.bind_ok, List.length_append, List.length_singleton,
                List.append_assoc, List.singleton_append]
              rw [storeSlot_at blocks _ _ r2 2 0 _ (by simp; omega)]
              simp only [Outcome.bind_ok, Nat.add_zero]
              rw [indexCells_one P rows cols _ hr0]
              have hloop := rowLoop_eq (D := D) P rows cols hr blocks
                [some (Block.doubles (List.replicate (rows * cols % P.sizeMod) none))] r2
                (blocks.length + 1) fuel 1 0 (Nat.le_refl 1) hr0
              rw [Nat.one_mul, Nat.mod_eq_of_lt hc] at hloop
              rw [hloop]
              by_cases hf : rows ≤ fuel
              · rw [if_pos (by omega), if_pos hf]
                simp [arrayHeap]
              · rw [if_neg (by omega), if_neg hf]
                simp

theorem live_snoc {D : Type} (pre : List (Option (Block D))) (x : Option (Block D))
    (o o' : List Bool) :
    Heap.live (⟨pre ++ [x], o⟩ : Heap D)
      = Heap.live (⟨pre, o'⟩ : Heap D) ++ (if x.isSome then [pre.length] else []) := by
  have hcongr : (List.range pre.length).filter (fun b => ((pre ++ [x])[b]?).join.isSome)
      = (List.range pre.length).filter (fun b => (pre[b]?).join.isSome) := by
    apply List.filter_congr
    intro b hb
    rw [List.getElem?_append_left (List.mem_range.mp hb)]
  have hlast : (pre ++ [x])[pre.length]? = some x := getElem?_append_cons_length pre x []
  simp only [Heap.live, List.length_append, List.length_singleton, List.range_succ,
    List.filter_append, hcongr, List.filter_cons, List.filter_nil, hlast]
  cases x <;> simp

theorem live_oracle {D : Type} (bs : List (Option (Block D))) (o o' : List Bool) :
    Heap.live (⟨bs, o⟩ : Heap D) = Heap.live (⟨bs, o'⟩ : Heap D) := rfl

theorem live_arrayHeap {D : Type} (P : Platform) (pre : List (Option (Block D)))
    (rows cols : Nat) (S : List (Option D)) (orc orc' : List Bool) :
    (arrayHeap P pre rows cols S orc).live
      = Heap.live (⟨pre, orc'⟩ : Heap D) ++ [pre.length, pre.length + 1] := by
  have h1 := live_snoc (pre ++ [some (Block.slots (indexCells P rows cols (pre.length + 1) rows))])
    (some (Block.doubles S)) orc orc
  have h2 := live_snoc pre (some (Block.slots (indexCells P rows cols (pre.length + 1) rows)))
    orc orc'
  simp only [List.append_assoc, List.singleton_append] at h1
  simp only [arrayHeap, h1, h2]
  simp

theorem live_leakHeap {D : Type} (pre : List (Option (Block D)))
    (rows cols : Nat) (orc orc' : List Bool) :
    (leakHeap pre rows cols orc).live
      = Heap.live (⟨pre, orc'⟩ : Heap D) ++ [pre.length] := by
  simp only [leakHeap, live_snoc pre _ orc orc']
  simp

theorem live_released {D : Type} (pre : List (Option (Block D))) (orc orc' : List Bool) :
    Heap.live (⟨pre ++ [none, none], orc⟩ : Heap D) = Heap.live (⟨pre, orc'⟩ : Heap D) := by
  have h1 := live_snoc (pre ++ [none]) (none : Option (Block D)) orc orc
  have h2 := live_snoc pre (none : Option (Block D)) orc orc'
  simp only [List.append_assoc, List.singleton_append] at h1
  rw [h1, h2]
  simp

theorem indexCells_hidden0 (P : Platform) (rows cols sto k : Nat) :
    (indexCells P rows cols sto k)[0]? = some (some (Ptr.raw rows)) := by
  simp [indexCells]

theorem indexCells_hidden1 (P : Platform) (rows cols sto k : Nat) :
    (indexCells P rows cols sto k)[1]? = some (some (Ptr.raw cols)) := by
  simp [indexCells]

theorem indexCells_row (P : Platform) (rows cols sto k i : Nat) (hi : i < k) :
    (indexCells P rows cols sto k)[2 + i]?
      = some (some (Ptr.elem sto (i * cols % P.sizeMod % P.elemMod))) := by
  have hlen : i < (rowPtrs P cols sto k).length := by rw [rowPtrs_length]; exact hi
  simp only [indexCells, Nat.add_comm 2 i, List.getElem?_cons_succ]
  rw [List.getElem?_append_left hlen]
  simp [rowPtrs, hi]

theorem indexCells_beyond (P : Platform) (rows cols sto i : Nat) (hi : rows ≤ i) :
    (indexCells P rows cols sto rows)[2 + i]? = none := by
  apply List.getElem?_eq_none
  rw [indexCells_length P rows cols sto rows (Nat.le_refl _)]
  omega

theorem GetRows_array {D : Type} (P : Platform) (pre : List (Option (Block D)))
    (rows cols : Nat) (S : List (Option D)) (orc : List Bool) :
    GetRows P (Handle.slot pre.length 2) (arrayHeap P pre rows cols S orc)
      = Outcome.ok (P.toInt rows) (arrayHeap P pre rows cols S orc) := by
  simp only [GetRows, Handle.sub, arrayHeap, Nat.le_refl, if_true, Nat.sub_self,
    Outcome.bind_ok]
  rw [loadSlot_at pre _ _ orc 0 0 _ (indexCells_hidden0 P rows cols _ rows)]
  simp [ptrToInt]

theorem GetCols_array {D : Type} (P : Platform) (pre : List (Option (Block D)))
    (rows cols : Nat) (S : List (Option D)) (orc : List Bool) :
    GetCols P (Handle.slot pre.length 2) (arrayHeap P pre rows cols S orc)
      = Outcome.ok (P.toInt cols) (arrayHeap P pre rows cols S orc) := by
  simp only [GetCols, Handle.sub, arrayHeap, Outcome.bind_ok]
  rw [if_pos (by omega)]
  simp only [Outcome.bind_ok]
  rw [loadSlot_at pre _ _ orc 1 0 _ (indexCells_hidden1 P rows cols _ rows)]
  simp [ptrToInt]

theorem loadRow_array {D : Type} (P : Platform) (pre : List (Option (Block D)))
    (rows cols : Nat) (S : List (Option D)) (orc : List Bool) (i : Nat) (hi : i < rows) :
    loadSlot (Handle.slot pre.length 2) i (arrayHeap P pre rows cols S orc)
      = Outcome.ok (Ptr.elem (pre.length + 1) (i * cols % P.sizeMod % P.elemMod))
          (arrayHeap P pre rows cols S orc) := by
  simp only [arrayHeap]
  rw [loadSlot_at pre _ _ orc 2 i _ (indexCells_row P rows cols _ rows i hi)]

theorem storeDouble_array {D : Type} (P : Platform) (pre : List (Option (Block D)))
    (rows cols : Nat) (S : List (Option D)) (orc : List Bool) (j : Nat) (v : D) :
    storeDouble (Ptr.elem (pre.length + 1) j) v (arrayHeap P pre rows cols S orc)
      = if j < S.length then
          Outcome.ok () (arrayHeap P pre rows cols (S.set j (some v)) orc)
        else Outcome.undefined := by
  simp only [storeDouble, arrayHeap, getElem?_append_cons_succ, set_append_cons_succ]

theorem loadDouble_array {D : Type} (P : Platform) (pre : List (Option (Block D)))
    (rows cols : Nat) (S : List (Option D)) (orc : List Bool) (j : Nat) :
    loadDouble (Ptr.elem (pre.length + 1) j) (arrayHeap P pre rows cols S orc)
      = match S[j]? with
        | some (some v) => Outcome.ok v (arrayHeap P pre rows cols S orc)
        | _ => Outcome.undefined := by
  simp only [loadDouble, arrayHeap, getElem?_append_cons_succ]

theorem Delete2DArray_array {D : Type} (P : Platform) (pre : List (Option (Block D)))
    (rows cols : Nat) (S : List (Option D)) (orc : List Bool) (hr : 0 < rows) :
    Delete2DArray (Handle.slot pre.length 2) (arrayHeap P pre rows cols S orc)
      = Outcome.ok () ⟨pre ++ [none, none], orc⟩ := by
  have hrow := loadRow_array P pre rows cols S orc 0 hr
  simp only [Nat.zero_mul, Nat.zero_mod] at hrow
  simp only [Delete2DArray, hrow, Outcome.bind_ok]
  simp only [arrayHeap, deleteDoubleArray, getElem?_append_cons_succ, if_true,
    set_append_cons_succ, Outcome.bind_ok, Handle.sub, Nat.le_refl, Nat.sub_self,
    deletePtrArray, getElem?_append_cons_length, set_append_cons_length]
theorem Create2DArray_ok_inv {D : Type} (P : Platform) (fuel rows cols : Nat)
    (h0 h1 : Heap D) (b o : Nat) (hr : rows < P.sizeMod) (hc : cols < P.sizeMod)
    (hok : Create2DArray P fuel rows cols h0 = Outcome.ok (Handle.slot b o) h1) :
    0 < rows ∧ 0 < cols ∧ rows + 2 < P.sizeMod ∧ rows ≤ fuel ∧
      b = h0.blocks.length ∧ o = 2 ∧
      ∃ r2, h0.oracle = true :: true :: r2 ∧
        h1 = arrayHeap P h0.blocks rows cols
          (List.replicate (rows * cols % P.sizeMod) none) r2 := by
  rw [Create2DArray_eq P fuel rows cols h0 hr hc] at hok
  unfold createSpec at hok
  by_cases hz : rows = 0 ∨ cols = 0
  · rw [if_pos hz] at hok
    cases hok
  · rw [if_neg hz] at hok
    by_cases hbig : P.sizeMod ≤ (rows + 2) % P.sizeMod * P.sizeofPtr
    · rw [if_pos hbig] at hok
      cases hok
    · rw [if_neg hbig] at hok
      obtain ⟨blocks, oracle⟩ := h0
      match oracle, hok with
      | [], hok => cases hok
      | false :: r, hok => cases hok
      | true :: r, hok =>
        by_cases hov : P.sizeMod ≤ rows + 2
        · simp only [hov, if_true] at hok
          cases hok
        · simp only [hov, if_false] at hok
          by_cases hbig2 : P.sizeMod ≤ rows * cols % P.sizeMod * sizeofDouble
          · rw [if_pos hbig2] at hok
            cases hok
          · rw [if_neg hbig2] at hok
            match r, hok with
            | [], hok => cases hok
            | false :: r2, hok => cases hok
            | true :: r2, hok =>
              by_cases hf : rows ≤ fuel
              · simp only [hf, if_true] at hok
                injection hok with e1 e2
                injection e1 with e3 e4
                exact ⟨by omega, by omega, by omega, hf, e3.symm, e4.symm, r2, rfl, e2.symm⟩
              · simp only [hf, if_false] at hok
                cases hok

theorem Create2DArray_ok_sizes {D : Type} (P : Platform) (fuel rows cols : Nat)
    (h0 h1 : Heap D) (b o : Nat) (hr : rows < P.sizeMod) (hc : cols < P.sizeMod)
    (hok : Create2DArray P fuel rows cols h0 = Outcome.ok (Handle.slot b o) h1) :
    (rows + 2) * P.sizeofPtr < P.sizeMod ∧
      rows * cols % P.sizeMod * sizeofDouble < P.sizeMod := by
  obtain ⟨_, _, hov, _⟩ := Create2DArray_ok_inv P fuel rows cols h0 h1 b o hr hc hok
  rw [Create2DArray_eq P fuel rows cols h0 hr hc] at hok
  unfold createSpec at hok
  have hL : (rows + 2) % P.sizeMod = rows + 2 := Nat.mod_eq_of_lt hov
  by_cases hz : rows = 0 ∨ cols = 0
  · rw [if_pos hz] at hok
    cases hok
  · rw [if_neg hz] at hok
    by_cases hbig : P.sizeMod ≤ (rows + 2) % P.sizeMod * P.sizeofPtr
    · rw [if_pos hbig] at hok
      cases hok
    · rw [if_neg hbig] at hok
      rw [hL] at hbig
      refine ⟨by omega, ?_⟩
      obtain ⟨blocks, oracle⟩ := h0
      match oracle, hok with
      | [], hok => cases hok
      | false :: r, hok => cases hok
      | true :: r, hok =>
        simp only [if_neg (show ¬ P.sizeMod ≤ rows + 2 by omega)] at hok
        by_cases hbig2 : P.sizeMod ≤ rows * cols % P.sizeMod * sizeofDouble
        · rw [if_pos hbig2] at hok
          cases hok
        · omega

theorem Create2DArray_ok {D : Type} (P : Platform) (fuel rows cols : Nat)
    (blocks : List (Option (Block D))) (r2 : List Bool)
    (hr0 : 0 < rows) (hc0 : 0 < cols) (hr : rows + 2 < P.sizeMod) (hc : cols < P.sizeMod)
    (hs1 : (rows + 2) * P.sizeofPtr < P.sizeMod)
    (hs2 : rows * cols % P.sizeMod * sizeofDouble < P.sizeMod)
    (hf : rows ≤ fuel) :
    Create2DArray P fuel rows cols (⟨blocks, true :: true :: r2⟩ : Heap D)
      = Outcome.ok (Handle.slot blocks.length 2)
          (arrayHeap P blocks rows cols (List.replicate (rows * cols % P.sizeMod) none) r2) := by
  have hL : (rows + 2) % P.sizeMod = rows + 2 := Nat.mod_eq_of_lt hr
  rw [Create2DArray_eq P fuel rows cols _ (by omega) hc]
  unfold createSpec
  rw [if_neg (by omega), hL, if_neg (by omega)]
  simp only
  rw [if_neg (by omega), if_neg (by omega), if_pos hf]

theorem toInt_small (P : Platform) (n : Nat) (hn : n < 2 ^ (P.intBits - 1)) :
    P.toInt n = (n : Int) := by
  have hle : 2 ^ (P.intBits - 1) ≤ 2 ^ P.intBits :=
    Nat.pow_le_pow_right (by decide) (Nat.sub_le _ _)
  have hmod : n % 2 ^ P.intBits = n := Nat.mod_eq_of_lt (by omega)
  unfold Platform.toInt
  rw [hmod, if_pos hn]
theorem handle_index_natCast {D : Type} (ara : Handle) (n : Nat) (h : Heap D) :
    Handle.index ara (n : Int) h = Handle.add ara n h := rfl

theorem ptr_index_natCast {D : Type} (P : Platform) (b off n : Nat) (h : Heap D) :
    Ptr.index P (Ptr.elem b off) (n : Int) h
      = Outcome.ok (Ptr.elem b ((off + n) % P.elemMod)) h := rfl

theorem elemMod_le (P : Platform) : P.elemMod ≤ P.sizeMod := by
  unfold Platform.elemMod
  exact Nat.div_le_self _ _

theorem sizeMod_mod_eight (P : Platform) (h : 8 ≤ P.sizeMod) : P.sizeMod % 8 = 0 := by
  unfold Platform.sizeMod at h ⊢
  have hw : 3 ≤ P.sizeBits := by
    by_contra hlt
    have h4 : 2 ^ P.sizeBits ≤ 2 ^ 2 := Nat.pow_le_pow_right (by decide) (by omega)
    omega
  obtain ⟨d, hd⟩ : ∃ d, P.sizeBits = 3 + d := ⟨P.sizeBits - 3, by omega⟩
  rw [hd, Nat.pow_add]
  simp

theorem lt_elemMod (P : Platform) (n : Nat) (hn : 0 < n)
    (h : n * sizeofDouble < P.sizeMod) : n < P.elemMod := by
  unfold sizeofDouble at h
  have h8 := sizeMod_mod_eight P (by omega)
  unfold Platform.elemMod sizeofDouble
  omega

theorem position_lt (rows cols r c : Nat) (hr : r < rows) (hc : c < cols) :
    r * cols + c < rows * cols := by
  have h1 : (r + 1) * cols ≤ rows * cols := Nat.mul_le_mul_right cols hr
  rw [Nat.succ_mul] at h1
  omega

theorem row_offset_le (rows cols r : Nat) (hr : r < rows) :
    r * cols + cols ≤ rows * cols := by
  have h1 : (r + 1) * cols ≤ rows * cols := Nat.mul_le_mul_right cols hr
  rw [Nat.succ_mul] at h1
  exact h1

theorem position_lt_of_row_lt (cols r c r' c' : Nat) (hc : c < cols) (hrr : r < r') :
    r * cols + c < r' * cols + c' := by
  have h1 : (r + 1) * cols ≤ r' * cols := Nat.mul_le_mul_right cols hrr
  rw [Nat.succ_mul] at h1
  omega

theorem position_inj (cols r c r' c' : Nat) (hc : c < cols) (hc' : c' < cols)
    (h : r * cols + c = r' * cols + c') : r = r' ∧ c = c' := by
  rcases Nat.lt_trichotomy r r' with hlt | heq | hgt
  · have := position_lt_of_row_lt cols r c r' c' hc hlt
    omega
  · subst heq
    exact ⟨rfl, by omega⟩
  · have := position_lt_of_row_lt cols r' c' r c hc' hgt
    omega

theorem position_mod (P : Platform) (rows cols r c : Nat) (hE : rows * cols < P.elemMod)
    (hr : r < rows) (hc : c < cols) :
    (r * cols % P.sizeMod % P.elemMod + c) % P.elemMod = r * cols + c := by
  have h1 := position_lt rows cols r c hr hc
  have h2 := elemMod_le P
  rw [Nat.mod_eq_of_lt (show r * cols < P.sizeMod by omega),
    Nat.mod_eq_of_lt (show r * cols < P.elemMod by omega),
    Nat.mod_eq_of_lt (show r * cols + c < P.elemMod by omega)]

theorem row_mod (P : Platform) (rows cols r : Nat) (hE : rows * cols < P.elemMod)
    (hr : r < rows) :
    r * cols % P.sizeMod % P.elemMod = r * cols := by
  have h1 := row_offset_le rows cols r hr
  have h2 := elemMod_le P
  rw [Nat.mod_eq_of_lt (show r * cols < P.sizeMod by omega),
    Nat.mod_eq_of_lt (show r * cols < P.elemMod by omega)]

theorem elemAddr_array {D : Type} (P : Platform) (pre : List (Option (Block D)))
    (rows cols : Nat) (S : List (Option D)) (orc : List Bool) (r c : Nat) (hr : r < rows) :
    elemAddr P (Handle.slot pre.length 2) (r : Int) (c : Int)
        (arrayHeap P pre rows cols S orc)
      = Outcome.ok
          (Ptr.elem (pre.length + 1) ((r * cols % P.sizeMod % P.elemMod + c) % P.elemMod))
          (arrayHeap P pre rows cols S orc) := by
  have hrow := loadRow_array P pre rows cols S orc r hr
  have hrow0 : loadSlot (Handle.slot pre.length (2 + r)) 0 (arrayHeap P pre rows cols S orc)
      = loadSlot (Handle.slot pre.length 2) r (arrayHeap P pre rows cols S orc) := by
    simp [loadSlot]
  simp only [elemAddr, handle_index_natCast, Handle.add, Outcome.bind_ok, hrow0, hrow,
    ptr_index_natCast]

theorem elemAddr_valid {D : Type} (P : Platform) (pre : List (Option (Block D)))
    (rows cols : Nat) (S : List (Option D)) (orc : List Bool) (r c : Nat)
    (hE : rows * cols < P.elemMod) (hr : r < rows) (hc : c < cols) :
    elemAddr P (Handle.slot pre.length 2) (r : Int) (c : Int)
        (arrayHeap P pre rows cols S orc)
      = Outcome.ok (Ptr.elem (pre.length + 1) (r * cols + c))
          (arrayHeap P pre rows cols S orc) := by
  rw [elemAddr_array P pre rows cols S orc r c hr, position_mod P rows cols r c hE hr hc]

theorem storeElem_valid {D : Type} (P : Platform) (pre : List (Option (Block D)))
    (rows cols : Nat) (S : List (Option D)) (orc : List Bool) (r c : Nat) (v : D)
    (hE : rows * cols < P.elemMod) (hr : r < rows) (hc : c < cols) :
    storeElem P (Handle.slot pre.length 2) (r : Int) (c : Int) v
        (arrayHeap P pre rows cols S orc)
      = if r * cols + c < S.length then
          Outcome.ok () (arrayHeap P pre rows cols (S.set (r * cols + c) (some v)) orc)
        else Outcome.undefined := by
  simp only [storeElem, elemAddr_valid P pre rows cols S orc r c hE hr hc, Outcome.bind_ok,
    storeDouble_array]

theorem loadElem_valid {D : Type} (P : Platform) (pre : List (Option (Block D)))
    (rows cols : Nat) (S : List (Option D)) (orc : List Bool) (r c : Nat)
    (hE : rows * cols < P.elemMod) (hr : r < rows) (hc : c < cols) :
    loadElem P (Handle.slot pre.length 2) (r : Int) (c : Int)
        (arrayHeap P pre rows cols S orc)
      = match S[r * cols + c]? with
        | some (some v) => Outcome.ok v (arrayHeap P pre rows cols S orc)
        | _ => Outcome.undefined := by
  simp only [loadElem, elemAddr_valid P pre rows cols S orc r c hE hr hc, Outcome.bind_ok,
    loadDouble_array]

theorem loadSlot_array_cases {D : Type} (P : Platform) (pre : List (Option (Block D)))
    (rows cols : Nat) (S : List (Option D)) (orc : List Bool) (k : Nat) (p : Ptr)
    (h' : Heap D)
    (hl : loadSlot (Handle.slot pre.length k) 0 (arrayHeap P pre rows cols S orc)
      = Outcome.ok p h') :
    h' = arrayHeap P pre rows cols S orc ∧
      ((∃ n, p = Ptr.raw n) ∨ ∃ off, p = Ptr.elem (pre.length + 1) off) := by
  simp only [loadSlot, arrayHeap, getElem?_append_cons_length, Nat.add_zero] at hl
  rcases Nat.lt_or_ge k 2 with hk | hk
  · rcases Nat.lt_or_ge k 1 with hk0 | hk1
    · have : k = 0 := by omega
      subst this
      rw [indexCells_hidden0] at hl
      simp only at hl
      injection hl with e1 e2
      exact ⟨e2.symm, Or.inl ⟨rows, e1.symm⟩⟩
    · have : k = 1 := by omega
      subst this
      rw [indexCells_hidden1] at hl
      simp only at hl
      injection hl with e1 e2
      exact ⟨e2.symm, Or.inl ⟨cols, e1.symm⟩⟩
  · obtain ⟨i, rfl⟩ : ∃ i, k = 2 + i := ⟨k - 2, by omega⟩
    rcases Nat.lt_or_ge i rows with hi | hi
    · rw [indexCells_row P rows cols _ rows i hi] at hl
      simp only at hl
      injection hl with e1 e2
      exact ⟨e2.symm, Or.inr ⟨_, e1.symm⟩⟩
    · rw [indexCells_beyond P rows cols _ i hi] at hl
      simp only at hl
      cases hl

theorem storeElem_array_inv {D : Type} (P : Platform) (pre : List (Option (Block D)))
    (rows cols : Nat) (S : List (Option D)) (orc : List Bool) (r c : Int) (v : D)
    (h' : Heap D)
    (hs : storeElem P (Handle.slot pre.length 2) r c v (arrayHeap P pre rows cols S orc)
      = Outcome.ok () h') :
    ∃ S', S'.length = S.length ∧ h' = arrayHeap P pre rows cols S' orc := by
  simp only [storeElem, elemAddr] at hs
  have hidx : ∃ k, Handle.index (Handle.slot pre.length 2) r (arrayHeap P pre rows cols S orc)
      = Outcome.ok (Handle.slot pre.length k) (arrayHeap P pre rows cols S orc) := by
    cases r with
    | ofNat n => exact ⟨2 + n, rfl⟩
    | negSucc n =>
      by_cases hn : n + 1 ≤ 2
      · exact ⟨2 - (n + 1), by simp [Handle.index, Handle.sub, hn]⟩
      · simp [Handle.index, Handle.sub, hn] at hs
  obtain ⟨k, hk⟩ := hidx
  rw [hk] at hs
  simp only [Outcome.bind_ok] at hs
  cases hl : loadSlot (Handle.slot pre.length k) 0 (arrayHeap P pre rows cols S orc) with
  | ok p h2 =>
    obtain ⟨rfl, hp⟩ := loadSlot_array_cases P pre rows cols S orc k p h2 hl
    rw [hl] at hs
    simp only [Outcome.bind_ok] at hs
    rcases hp with ⟨n, rfl⟩ | ⟨off, rfl⟩
    · simp [Ptr.index] at hs
    · have hq : ∃ j, Ptr.index P (Ptr.elem (pre.length + 1) off) c
            (arrayHeap P pre rows cols S orc)
          = Outcome.ok (Ptr.elem (pre.length + 1) j) (arrayHeap P pre rows cols S orc) := by
        cases c with
        | ofNat m => exact ⟨_, rfl⟩
        | negSucc m => exact ⟨_, rfl⟩
      obtain ⟨j, hj⟩ := hq
      rw [hj] at hs
      simp only [Outcome.bind_ok, storeDouble_array] at hs
      by_cases hjl : j < S.length
      · rw [if_pos hjl] at hs
        injection hs with _ e2
        exact ⟨_, by simp, e2.symm⟩
      · rw [if_neg hjl] at hs
        cases hs
  | thrown h2 => rw [hl] at hs; cases hs
  | undefined => rw [hl] at hs; cases hs
  | timeout => rw [hl] at hs; cases hs

theorem storeElems_array_inv {D : Type} (P : Platform) (pre : List (Option (Block D)))
    (rows cols : Nat) (orc : List Bool) (ws : List (Int × Int × D)) :
    ∀ (S : List (Option D)) (h' : Heap D),
      storeElems P (Handle.slot pre.length 2) ws (arrayHeap P pre rows cols S orc)
        = Outcome.ok () h' →
      ∃ S', S'.length = S.length ∧ h' = arrayHeap P pre rows cols S' orc := by
  induction ws with
  | nil =>
    intro S h' hs
    simp only [storeElems] at hs
    injection hs with _ e2
    exact ⟨S, rfl, e2.symm⟩
  | cons w ws ih =>
    intro S h' hs
    obtain ⟨r, c, v⟩ := w
    simp only [storeElems] at hs
    cases h1 : storeElem P (Handle.slot pre.length 2) r c v
        (arrayHeap P pre rows cols S orc) with
    | ok u h2 =>
      obtain ⟨S1, hlen1, rfl⟩ := storeElem_array_inv P pre rows cols S orc r c v h2 h1
      rw [h1] at hs
      simp only [Outcome.bind_ok] at hs
      obtain ⟨S2, hlen2, rfl⟩ := ih S1 h' hs
      exact ⟨S2, by omega, rfl⟩
    | thrown h2 => rw [h1] at hs; cases hs
    | undefined => rw [h1] at hs; cases hs
    | timeout => rw [h1] at hs; cases hs
theorem Create2DArray_setup_ok {D : Type} (P : Platform) (rows cols : Nat)
    (blocks : List (Option (Block D))) (r2 : List Bool)
    (hr0 : 0 < rows) (hc0 : 0 < cols) (hr : rows + 2 < P.sizeMod)
    (hs1 : (rows + 2) * P.sizeofPtr < P.sizeMod)
    (hs2 : rows * cols % P.sizeMod * sizeofDouble < P.sizeMod) :
    Create2DArray_setup P rows cols (⟨blocks, true :: true :: r2⟩ : Heap D)
      = Outcome.ok (Handle.slot blocks.length 2)
          ⟨blocks ++ [some (Block.slots (indexCells P rows cols (blocks.length + 1) 1)),
            some (Block.doubles (List.replicate (rows * cols % P.sizeMod) none))], r2⟩ := by
  have hL : (rows + 2) % P.sizeMod = rows + 2 := Nat.mod_eq_of_lt hr
  unfold Create2DArray_setup
  rw [if_neg (by omega)]
  unfold newPtrArray
  rw [hL, if_neg (by omega)]
  simp only [Outcome.bind_ok]
  rw [storeSlot_at blocks [] _ _ 0 0 _ (by simp)]
  simp only [Outcome.bind_ok]
  rw [storeSlot_at blocks [] _ _ 0 1 _ (by simp)]
  simp only [Outcome.bind_ok, Handle.add, Nat.zero_add, List.replicate_succ,
    List.set_cons_zero, List.set_cons_succ]
  unfold newDoubleArray
  rw [if_neg (by omega)]
  simp only [Outcome.bind_ok, List.length_append, List.length_singleton,
    List.append_assoc, List.singleton_append]
  rw [storeSlot_at blocks _ _ r2 2 0 _ (by simp; omega)]
  simp only [Outcome.bind_ok, Nat.add_zero]
  rw [indexCells_one P rows cols _ hr0]

theorem Create2DArray_leak {D : Type} (P : Platform) (fuel rows cols : Nat)
    (blocks : List (Option (Block D))) (r2 : List Bool)
    (hr0 : 0 < rows) (hc0 : 0 < cols) (hr : rows + 2 < P.sizeMod) (hc : cols < P.sizeMod)
    (hs1 : (rows + 2) * P.sizeofPtr < P.sizeMod)
    (hs2 : rows * cols % P.sizeMod * sizeofDouble < P.sizeMod) :
    Create2DArray P fuel rows cols (⟨blocks, true :: false :: r2⟩ : Heap D)
      = Outcome.ok Handle.null (leakHeap blocks rows cols r2) ∧
    (leakHeap blocks rows cols r2).live
      = Heap.live (⟨blocks, true :: false :: r2⟩ : Heap D) ++ [blocks.length] := by
  have hL : (rows + 2) % P.sizeMod = rows + 2 := Nat.mod_eq_of_lt hr
  refine ⟨?_, live_leakHeap blocks rows cols r2 _⟩
  rw [Create2DArray_eq P fuel rows cols _ (by omega) hc]
  unfold createSpec
  rw [if_neg (by omega), hL, if_neg (by omega)]
  simp only
  rw [if_neg (by omega), if_neg (by omega)]

theorem hidden_slots_stored {D : Type} (P : Platform) (rows cols : Nat)
    (blocks : List (Option (Block D))) (r : List Bool) (Q : Heap D → Prop) :
    (∃ ara hA hB hC,
        newPtrArray P ((rows + 2) % P.sizeMod) (⟨blocks, true :: r⟩ : Heap D)
          = Outcome.ok ara hA ∧
        storeSlot ara 0 (Ptr.raw rows) hA = Outcome.ok () hB ∧
        storeSlot ara 1 (Ptr.raw cols) hB = Outcome.ok () hC ∧ Q hC) ↔
      (¬ P.sizeMod ≤ (rows + 2) % P.sizeMod * P.sizeofPtr ∧
        2 ≤ (rows + 2) % P.sizeMod ∧
        Q ⟨blocks ++ [some (Block.slots (some (Ptr.raw rows) :: some (Ptr.raw cols) ::
          List.replicate ((rows + 2) % P.sizeMod - 2) none))], r⟩) := by
  generalize (rows + 2) % P.sizeMod = n
  have hcells : 2 ≤ n →
      ((List.replicate n (none : Option Ptr)).set (0 + 0) (some (Ptr.raw rows))).set (0 + 1)
          (some (Ptr.raw cols))
        = some (Ptr.raw rows) :: some (Ptr.raw cols) :: List.replicate (n - 2) none := by
    intro hn
    obtain ⟨d, rfl⟩ : ∃ d, n = d + 2 := ⟨n - 2, by omega⟩
    simp [List.replicate_succ]
  unfold newPtrArray
  by_cases hbig : P.sizeMod ≤ n * P.sizeofPtr
  · rw [if_pos hbig]
    constructor
    · rintro ⟨ara, hA, hB, hC, h1, _⟩
      cases h1
    · rintro ⟨h1, _⟩
      exact absurd hbig h1
  · rw [if_neg hbig]
    constructor
    · rintro ⟨ara, hA, hB, hC, h1, h2, h3, hq⟩
      simp only at h1
      injection h1 with e1 e2
      subst e1 e2
      by_cases hn : 2 ≤ n
      · rw [storeSlot_at blocks [] _ r 0 0 _ (by simp; omega)] at h2
        injection h2 with _ e2
        subst e2
        rw [storeSlot_at blocks [] _ r 0 1 _ (by simp; omega)] at h3
        injection h3 with _ e3
        subst e3
        rw [hcells hn] at hq
        exact ⟨hbig, hn, hq⟩
      · by_cases h0 : n = 0
        · rw [storeSlot_oob blocks [] _ r 0 0 _ (by simp [h0])] at h2
          cases h2
        · rw [storeSlot_at blocks [] _ r 0 0 _ (by simp; omega)] at h2
          injection h2 with _ e2
          subst e2
          rw [storeSlot_oob blocks [] _ r 0 1 _ (by simp; omega)] at h3
          cases h3
    · rintro ⟨_, hn, hq⟩
      refine ⟨_, _, _, _, rfl, storeSlot_at blocks [] _ r 0 0 _ (by simp; omega),
        storeSlot_at blocks [] _ r 0 1 _ (by simp; omega), ?_⟩
      rw [hcells hn]
      exact hq

theorem fillCols_array (P : Platform) (pre : List (Option (Block Int))) (rows cols : Nat)
    (orc : List Bool) (hC : P.toInt cols = (cols : Int)) (hE : rows * cols < P.elemMod)
    (r : Nat) (hr : r < rows) :
    ∀ (fuel c : Nat) (S : List (Option Int)), c ≤ cols → cols - c < fuel →
      S.length = rows * cols → FilledUpTo cols S r c →
      ∃ S', S'.length = rows * cols ∧ FilledUpTo cols S' (r + 1) 0 ∧
        fillCols P (Handle.slot pre.length 2) (r : Int) fuel (c : Int)
            (arrayHeap P pre rows cols S orc)
          = Outcome.ok () (arrayHeap P pre rows cols S' orc) := by
  intro fuel
  induction fuel with
  | zero => intro c S _ hf; omega
  | succ n ih =>
    intro c S hc hf hlen hfill
    unfold fillCols
    rw [GetCols_array, hC]
    simp only [Outcome.bind_ok]
    by_cases hlt : c < cols
    · have hpos := position_lt rows cols r c hr hlt
      rw [if_pos (Int.ofNat_lt.mpr hlt),
        storeElem_valid P pre rows cols S orc r c _ hE hr hlt, if_pos (by omega)]
      simp only [Outcome.bind_ok]
      have hcast : (c : Int) + 1 = ((c + 1 : Nat) : Int) := by push_cast; rfl
      rw [hcast]
      apply ih (c + 1) _ (by omega) (by omega) (by simp [hlen])
      intro r' c' hc' hcase
      by_cases heq : r' * cols + c' = r * cols + c
      · obtain ⟨e1, e2⟩ := position_inj cols r' c' r c hc' hlt heq
        subst e1 e2
        rw [List.getElem?_set_eq_of_lt _ (by omega)]
      · rw [List.getElem?_set_ne (Ne.symm heq)]
        apply hfill r' c' hc'
        rcases hcase with h | ⟨h1, h2⟩
        · exact Or.inl h
        · refine Or.inr ⟨h1, ?_⟩
          subst h1
          have : c' ≠ c := fun e => heq (by rw [e])
          omega
    · have hce : c = cols := by omega
      subst hce
      rw [if_neg (by simp)]
      refine ⟨S, hlen, ?_, rfl⟩
      intro r' c' hc' hcase
      apply hfill r' c' hc'
      rcases hcase with h | ⟨_, h2⟩
      · rcases Nat.lt_or_ge r' r with h3 | h3
        · exact Or.inl h3
        · exact Or.inr ⟨by omega, hc'⟩
      · omega

theorem fillRows_array (P : Platform) (pre : List (Option (Block Int))) (rows cols : Nat)
    (orc : List Bool) (hR : P.toInt rows = (rows : Int)) (hC : P.toInt cols = (cols : Int))
    (hE : rows * cols < P.elemMod) (inner : Nat) (hin : cols < inner) :
    ∀ (fuel r : Nat) (S : List (Option Int)), r ≤ rows → rows - r < fuel →
      S.length = rows * cols → FilledUpTo cols S r 0 →
      ∃ S', S'.length = rows * cols ∧ FilledUpTo cols S' rows 0 ∧
        fillRows P (Handle.slot pre.length 2) inner fuel (r : Int)
            (arrayHeap P pre rows cols S orc)
          = Outcome.ok () (arrayHeap P pre rows cols S' orc) := by
  intro fuel
  induction fuel with
  | zero => intro r S _ hf; omega
  | succ n ih =>
    intro r S hr hf hlen hfill
    unfold fillRows
    rw [GetRows_array, hR]
    simp only [Outcome.bind_ok]
    by_cases hlt : r < rows
    · rw [if_pos (Int.ofNat_lt.mpr hlt)]
      obtain ⟨S1, hlen1, hfill1, hrun⟩ := fillCols_array P pre rows cols orc hC hE r hlt
        inner 0 S (Nat.zero_le _) (by omega) hlen hfill
      have hzero : ((0 : Nat) : Int) = 0 := rfl
      rw [hzero] at hrun
      rw [hrun]
      simp only [Outcome.bind_ok]
      have hcast : (r : Int) + 1 = ((r + 1 : Nat) : Int) := by push_cast; rfl
      rw [hcast]
      exact ih (r + 1) S1 (by omega) (by omega) hlen1 hfill1
    · have hre : r = rows := by omega
      subst hre
      rw [if_neg (by simp)]
      exact ⟨S, hlen, hfill, rfl⟩

theorem rowOutput_step (cols r c : Nat) (hc : c < cols) :
    rowOutput cols r c
      = [Out.cout_double ((r : Int) * 10 + (c : Int)), Out.cout_char ' ']
          ++ rowOutput cols r (c + 1) := by
  obtain ⟨d, hd⟩ : ∃ d, cols - c = d + 1 := ⟨cols - c - 1, by omega⟩
  have hd2 : cols - (c + 1) = d := by omega
  simp [rowOutput, hd, hd2, List.range'_succ]

theorem gridOutput_step (rows cols r : Nat) (hr : r < rows) :
    gridOutput rows cols r
      = rowOutput cols r 0 ++ [Out.cout_endl] ++ gridOutput rows cols (r + 1) := by
  obtain ⟨d, hd⟩ : ∃ d, rows - r = d + 1 := ⟨rows - r - 1, by omega⟩
  have hd2 : rows - (r + 1) = d := by omega
  simp [gridOutput, hd, hd2, List.range'_succ]

theorem showCols_array (P : Platform) (pre : List (Option (Block Int))) (rows cols : Nat)
    (orc : List Bool) (hC : P.toInt cols = (cols : Int)) (hE : rows * cols < P.elemMod)
    (S : List (Option Int)) (hfill : FilledUpTo cols S rows 0) (r : Nat) (hr : r < rows) :
    ∀ (fuel c : Nat) (out : List Out), c ≤ cols → cols - c < fuel →
      showCols P (Handle.slot pre.length 2) (r : Int) fuel (c : Int) out
          (arrayHeap P pre rows cols S orc)
        = Outcome.ok (out ++ rowOutput cols r c) (arrayHeap P pre rows cols S orc) := by
  intro fuel
  induction fuel with
  | zero => intro c out _ hf; omega
  | succ n ih =>
    intro c out hc hf
    unfold showCols
    rw [GetCols_array, hC]
    simp only [Outcome.bind_ok]
    by_cases hlt : c < cols
    · rw [if_pos (Int.ofNat_lt.mpr hlt), loadElem_valid P pre rows cols S orc r c hE hr hlt,
        hfill r c hlt (Or.inl hr)]
      simp only [Outcome.bind_ok]
      have hcast : (c : Int) + 1 = ((c + 1 : Nat) : Int) := by push_cast; rfl
      rw [hcast, ih (c + 1) _ (by omega) (by omega), rowOutput_step cols r c hlt,
        List.append_assoc]
    · have hce : c = cols := by omega
      subst hce
      rw [if_neg (by simp)]
      simp [rowOutput]

theorem showRows_array (P : Platform) (pre : List (Option (Block Int))) (rows cols : Nat)
    (orc : List Bool) (hR : P.toInt rows = (rows : Int)) (hC : P.toInt cols = (cols : Int))
    (hE : rows * cols < P.elemMod)
    (S : List (Option Int)) (hfill : FilledUpTo cols S rows 0) (inner : Nat)
    (hin : cols < inner) :
    ∀ (fuel r : Nat) (out : List Out), r ≤ rows → rows - r < fuel →
      showRows P (Handle.slot pre.length 2) inner fuel (r : Int) out
          (arrayHeap P pre rows cols S orc)
        = Outcome.ok (out ++ gridOutput rows cols r) (arrayHeap P pre rows cols S orc) := by
  intro fuel
  induction fuel with
  | zero => intro r out _ hf; omega
  | succ n ih =>
    intro r out hr hf
    unfold showRows
    rw [GetRows_array, hR]
    simp only [Outcome.bind_ok]
    by_cases hlt : r < rows
    · have hrun := showCols_array P pre rows cols orc hC hE S hfill r hlt inner 0 out
        (Nat.zero_le _) (by omega)
      have hzero : ((0 : Nat) : Int) = 0 := rfl
      rw [hzero] at hrun
      rw [if_pos (Int.ofNat_lt.mpr hlt), hrun]
      simp only [Outcome.bind_ok]
      have hcast : (r : Int) + 1 = ((r + 1 : Nat) : Int) := by push_cast; rfl
      rw [hcast, ih (r + 1) _ (by omega) (by omega), gridOutput_step rows cols r hlt]
      simp only [List.append_assoc]
    · have hre : r = rows := by omega
      subst hre
      rw [if_neg (by simp)]
      simp [gridOutput]

theorem demo_grid_lines :
    ((List.range 9).flatMap fun col =>
        [Out.cout_double (((0 : Nat) : Int) * 10 + (col : Int)), Out.cout_char ' '])
      = [Out.cout_double 0, Out.cout_char ' ', Out.cout_double 1, Out.cout_char ' ',
         Out.cout_double 2, Out.cout_char ' ', Out.cout_double 3, Out.cout_char ' ',
         Out.cout_double 4, Out.cout_char ' ', Out.cout_double 5, Out.cout_char ' ',
         Out.cout_double 6, Out.cout_char ' ', Out.cout_double 7, Out.cout_char ' ',
         Out.cout_double 8, Out.cout_char ' '] ∧
    ((List.range 9).flatMap fun col =>
        [Out.cout_double (((1 : Nat) : Int) * 10 + (col : Int)), Out.cout_char ' '])
      = [Out.cout_double 10, Out.cout_char ' ', Out.cout_double 11, Out.cout_char ' ',
         Out.cout_double 12, Out.cout_char ' ', Out.cout_double 13, Out.cout_char ' ',
         Out.cout_double 14, Out.cout_char ' ', Out.cout_double 15, Out.cout_char ' ',
         Out.cout_double 16, Out.cout_char ' ', Out.cout_double 17, Out.cout_char ' ',
         Out.cout_double 18, Out.cout_char ' '] ∧
    ((List.range 9).flatMap fun col =>
        [Out.cout_double (((11 : Nat) : Int) * 10 + (col : Int)), Out.cout_char ' '])
      = [Out.cout_double 110, Out.cout_char ' ', Out.cout_double 111, Out.cout_char ' ',
         Out.cout_double 112, Out.cout_char ' ', Out.cout_double 113, Out.cout_char ' ',
         Out.cout_double 114, Out.cout_char ' ', Out.cout_double 115, Out.cout_char ' ',
         Out.cout_double 116, Out.cout_char ' ', Out.cout_double 117, Out.cout_char ' ',
         Out.cout_double 118, Out.cout_char ' '] := by
  decide

theorem storeElems_valid {D : Type} (P : Platform) (pre : List (Option (Block D)))
    (rows cols : Nat) (orc : List Bool) (hE : rows * cols < P.elemMod)
    (ws : List (Int × Int × D)) :
    (∀ w ∈ ws, 0 ≤ w.1 ∧ w.1 < (rows : Int) ∧ 0 ≤ w.2.1 ∧ w.2.1 < (cols : Int)) →
    ∀ S : List (Option D), S.length = rows * cols →
      ∃ S', S'.length = rows * cols ∧
        storeElems P (Handle.slot pre.length 2) ws (arrayHeap P pre rows cols S orc)
          = Outcome.ok () (arrayHeap P pre rows cols S' orc) := by
  induction ws with
  | nil => intro _ S hlen; exact ⟨S, hlen, rfl⟩
  | cons w ws ih =>
    intro hvalid S hlen
    obtain ⟨r, c, v⟩ := w
    obtain ⟨h1, h2, h3, h4⟩ := hvalid (r, c, v) (List.mem_cons_self _ _)
    simp only at h1 h2 h3 h4
    obtain ⟨rn, rfl⟩ := Int.eq_ofNat_of_zero_le h1
    obtain ⟨cn, rfl⟩ := Int.eq_ofNat_of_zero_le h3
    have hrn : rn < rows := Int.ofNat_lt.mp h2
    have hcn : cn < cols := Int.ofNat_lt.mp h4
    have hpos := position_lt rows cols rn cn hrn hcn
    simp only [storeElems]
    rw [storeElem_valid P pre rows cols S orc rn cn v hE hrn hcn, if_pos (by omega)]
    simp only [Outcome.bind_ok]
    exact ih (fun w hw => hvalid w (List.mem_cons_of_mem _ hw)) _ (by simp [hlen])

/-! ## The claims -/

/-- C1 (amended): after a successful `Create2DArray(rows, cols)` with handle `h`,
`GetRows(h)` and `GetCols(h)` return the stored `rows` and `cols` narrowed to `int`;
they return exactly `rows`, respectively `cols`, whenever that value is at most
`INT_MAX`, that is below `2 ^ (intBits - 1)`. -/
theorem GetRows_GetCols_after_Create2DArray {D : Type} (P : Platform)
    (fuel rows cols : Nat) (h0 h1 : Heap D) (b o : Nat)
    (hr : rows < P.sizeMod) (hc : cols < P.sizeMod)
    (hok : Create2DArray P fuel rows cols h0 = Outcome.ok (Handle.slot b o) h1) :
    GetRows P (Handle.slot b o) h1 = Outcome.ok (P.toInt rows) h1 ∧
    GetCols P (Handle.slot b o) h1 = Outcome.ok (P.toInt cols) h1 ∧
    (rows < 2 ^ (P.intBits - 1) →
      GetRows P (Handle.slot b o) h1 = Outcome.ok (rows : Int) h1) ∧
    (cols < 2 ^ (P.intBits - 1) →
      GetCols P (Handle.slot b o) h1 = Outcome.ok (cols : Int) h1) := by
  obtain ⟨_, _, _, _, hb, ho, r2, _, hh⟩ :=
    Create2DArray_ok_inv P fuel rows cols h0 h1 b o hr hc hok
  subst hb ho hh
  have hR := GetRows_array P h0.blocks rows cols
    (List.replicate (rows * cols % P.sizeMod) (none : Option D)) r2
  have hC := GetCols_array P h0.blocks rows cols
    (List.replicate (rows * cols % P.sizeMod) (none : Option D)) r2
  refine ⟨hR, hC, ?_, ?_⟩
  · intro hs; rw [hR, toInt_small P rows hs]
  · intro hs; rw [hC, toInt_small P cols hs]

/-- Witness for C1 (amended): a 3 x 4 array on a 64-bit platform. -/
theorem GetRows_GetCols_after_Create2DArray_witness :
    Create2DArray LP64 3 3 4 (⟨[], [true, true]⟩ : Heap Int)
        = Outcome.ok (Handle.slot 0 2)
            (arrayHeap LP64 [] 3 4 (List.replicate 12 none) []) ∧
      GetRows LP64 (Handle.slot 0 2)
          (arrayHeap LP64 [] 3 4 (List.replicate 12 (none : Option Int)) [])
        = Outcome.ok 3 (arrayHeap LP64 [] 3 4 (List.replicate 12 none) []) ∧
      GetCols LP64 (Handle.slot 0 2)
          (arrayHeap LP64 [] 3 4 (List.replicate 12 (none : Option Int)) [])
        = Outcome.ok 4 (arrayHeap LP64 [] 3 4 (List.replicate 12 none) []) :=
  have h := GetRows_GetCols_after_Create2DArray LP64 3 3 4 (⟨[], [true, true]⟩ : Heap Int)
    (arrayHeap LP64 [] 3 4 (List.replicate 12 none) []) 0 2
    (by decide) (by decide) (by decide)
  ⟨by decide, h.2.2.1 (by decide), h.2.2.2 (by decide)⟩

/-- C1 (as stated) fails: on a 32-bit platform `Create2DArray(2, 2147483648)` succeeds
(the element count `2 * 2147483648` wraps to 0 in `size_t`), and `GetCols` of the handle
returns `-2147483648`, not `2147483648`. -/
theorem GetCols_after_Create2DArray_counterexample :
    Create2DArray ILP32 2 2 2147483648 (⟨[], [true, true]⟩ : Heap Int)
        = Outcome.ok (Handle.slot 0 2)
            ⟨[some (Block.slots [some (Ptr.raw 2), some (Ptr.raw 2147483648),
                some (Ptr.elem 1 0), some (Ptr.elem 1 0)]),
              some (Block.doubles [])], []⟩ ∧
      GetCols ILP32 (Handle.slot 0 2)
          (⟨[some (Block.slots [some (Ptr.raw 2), some (Ptr.raw 2147483648),
                some (Ptr.elem 1 0), some (Ptr.elem 1 0)]),
              some (Block.doubles [])], []⟩ : Heap Int)
        = Outcome.ok (-2147483648)
            ⟨[some (Block.slots [some (Ptr.raw 2), some (Ptr.raw 2147483648),
                some (Ptr.elem 1 0), some (Ptr.elem 1 0)]),
              some (Block.doubles [])], []⟩ ∧
      (-2147483648 : Int) ≠ ((2147483648 : Nat) : Int) := by
  decide

/-- C2: `Create2DArray(0, n)`, `Create2DArray(n, 0)` and `Create2DArray(0, 0)` return
`NULL` for every `n`, and the heap they return is the heap they were given: no block is
added and no allocation request is made. -/
theorem Create2DArray_zero_dimension {D : Type} (P : Platform) (fuel n : Nat) (h : Heap D) :
    Create2DArray P fuel 0 n h = Outcome.ok Handle.null h ∧
    Create2DArray P fuel n 0 h = Outcome.ok Handle.null h ∧
    Create2DArray P fuel 0 0 h = Outcome.ok Handle.null h := by
  refine ⟨?_, ?_, ?_⟩ <;>
    simp [Create2DArray, Create2DArray_try, Create2DArray_setup]

/-- C9: when `Create2DArray(rows, cols)` succeeds on `size_t` arguments, the allocator
was asked exactly twice and the heap gained exactly two blocks: an index block of
`rows + 2` slots (the sum does not wrap) whose slot 0 holds `rows`, whose slot 1 holds
`cols` and whose slot 2 holds the address that `new double[...]` returned, and a storage
block of `rows * cols` elements, the product taken in `size_t`. The handle returned is
the address of slot 2 of the index block. -/
theorem Create2DArray_layout {D : Type} (P : Platform)
    (fuel rows cols : Nat) (h0 h1 : Heap D) (b o : Nat)
    (hr : rows < P.sizeMod) (hc : cols < P.sizeMod)
    (hok : Create2DArray P fuel rows cols h0 = Outcome.ok (Handle.slot b o) h1) :
    b = h0.blocks.length ∧ o = 2 ∧
    Handle.sub (Handle.slot b o) 2 h1 = Outcome.ok (Handle.slot b 0) h1 ∧
    ∃ (cells : List (Option Ptr)) (S : List (Option D)),
      h1.blocks = h0.blocks ++ [some (Block.slots cells), some (Block.doubles S)] ∧
      h0.oracle = true :: true :: h1.oracle ∧
      h1.live = h0.live ++ [b, b + 1] ∧
      cells.length = rows + 2 ∧ (rows + 2) % P.sizeMod = rows + 2 ∧
      cells[0]? = some (some (Ptr.raw rows)) ∧
      cells[1]? = some (some (Ptr.raw cols)) ∧
      cells[2]? = some (some (Ptr.elem (b + 1) 0)) ∧
      S.length = rows * cols % P.sizeMod := by
  obtain ⟨hr0, _, hov, _, hb, ho, r2, horc, hh⟩ :=
    Create2DArray_ok_inv P fuel rows cols h0 h1 b o hr hc hok
  subst hb ho hh
  refine ⟨rfl, rfl, by simp [Handle.sub], _, _, rfl, horc, ?_, ?_, ?_, ?_, ?_, ?_, ?_⟩
  · exact live_arrayHeap P h0.blocks rows cols _ r2 h0.oracle
  · exact indexCells_length P rows cols _ rows (Nat.le_refl _)
  · exact Nat.mod_eq_of_lt hov
  · exact indexCells_hidden0 P rows cols _ rows
  · exact indexCells_hidden1 P rows cols _ rows
  · exact indexCells_base P rows cols _ rows hr0
  · simp

/-- Witness for C9: a 3 x 4 array on a 64-bit platform. -/
theorem Create2DArray_layout_witness :
    Create2DArray LP64 3 3 4 (⟨[], [true, true]⟩ : Heap Int)
        = Outcome.ok (Handle.slot 0 2)
            (arrayHeap LP64 [] 3 4 (List.replicate 12 none) []) ∧
      ∃ (cells : List (Option Ptr)) (S : List (Option Int)),
        (arrayHeap LP64 [] 3 4 (List.replicate 12 (none : Option Int)) []).blocks
          = [some (Block.slots cells), some (Block.doubles S)] ∧
        cells.length = 5 ∧ S.length = 12 :=
  have h := Create2DArray_layout LP64 3 3 4 (⟨[], [true, true]⟩ : Heap Int)
    (arrayHeap LP64 [] 3 4 (List.replicate 12 none) []) 0 2
    (by decide) (by decide) (by decide)
  ⟨by decide, h.2.2.2.imp fun _ hc => hc.imp fun _ hS =>
    ⟨hS.1, hS.2.2.2.1, hS.2.2.2.2.2.2.2.2⟩⟩
/-- C3 (amended): after a successful `Create2DArray(rows, cols)` with handle `h` and
base `h[0]`, every `h[i]` with `i < rows` is the address `base + offset` that the
machine forms, `offset` being `i * cols` as accumulated in `size_t` and the address
wrapping with the address space. When `rows * cols` does not overflow `size_t`, `h[i]`
is the address of element `i * cols` of the storage block, row `i` ends inside the
block, and `h[i + 1]` minus `h[i]` is `cols` elements. -/
theorem Create2DArray_row_addresses {D : Type} (P : Platform)
    (fuel rows cols : Nat) (h0 h1 : Heap D) (b o : Nat)
    (hr : rows < P.sizeMod) (hc : cols < P.sizeMod)
    (hok : Create2DArray P fuel rows cols h0 = Outcome.ok (Handle.slot b o) h1) :
    ∃ sto S, h1.blocks[sto]? = some (some (Block.doubles S)) ∧
      loadSlot (Handle.slot b o) 0 h1 = Outcome.ok (Ptr.elem sto 0) h1 ∧
      (∀ i, i < rows →
        loadSlot (Handle.slot b o) i h1
          = Ptr.add P (Ptr.elem sto 0) (i * cols % P.sizeMod) h1) ∧
      (rows * cols < P.sizeMod →
        S.length = rows * cols ∧
        (∀ i, i < rows →
          loadSlot (Handle.slot b o) i h1 = Outcome.ok (Ptr.elem sto (i * cols)) h1 ∧
          i * cols + cols ≤ S.length) ∧
        (∀ i, i + 1 < rows → ∃ p q,
          loadSlot (Handle.slot b o) i h1 = Outcome.ok p h1 ∧
          loadSlot (Handle.slot b o) (i + 1) h1 = Outcome.ok q h1 ∧
          Ptr.diff q p = some (cols : Int))) := by
  obtain ⟨hr0, hc0, _, _, hb, ho, r2, _, hh⟩ :=
    Create2DArray_ok_inv P fuel rows cols h0 h1 b o hr hc hok
  obtain ⟨_, hsize⟩ := Create2DArray_ok_sizes P fuel rows cols h0 h1 b o hr hc hok
  subst hb ho hh
  have hrow := loadRow_array P h0.blocks rows cols
    (List.replicate (rows * cols % P.sizeMod) (none : Option D)) r2
  have hbase := hrow 0 hr0
  simp only [Nat.zero_mul, Nat.zero_mod] at hbase
  refine ⟨h0.blocks.length + 1, _, getElem?_append_cons_succ _ _ _ _, hbase, ?_, ?_⟩
  · intro i hi
    rw [hrow i hi]
    simp [Ptr.add]
  · intro hov
    rw [Nat.mod_eq_of_lt hov] at hsize
    have hE : rows * cols < P.elemMod :=
      lt_elemMod P (rows * cols) (Nat.mul_pos hr0 hc0) hsize
    have hlen : (List.replicate (rows * cols % P.sizeMod) (none : Option D)).length
        = rows * cols := by
      rw [List.length_replicate, Nat.mod_eq_of_lt hov]
    refine ⟨hlen, ?_, ?_⟩
    · intro i hi
      rw [hrow i hi, row_mod P rows cols i hE hi, hlen]
      exact ⟨rfl, row_offset_le rows cols i hi⟩
    · intro i hi
      refine ⟨_, _, hrow i (by omega), hrow (i + 1) hi, ?_⟩
      rw [row_mod P rows cols i hE (by omega), row_mod P rows cols (i + 1) hE hi]
      simp only [Ptr.diff, if_true]
      congr 1
      push_cast
      ring

/-- Witness for C3 (amended): a 3 x 4 array on a 64-bit platform. -/
theorem Create2DArray_row_addresses_witness :
    Create2DArray LP64 3 3 4 (⟨[], [true, true]⟩ : Heap Int)
        = Outcome.ok (Handle.slot 0 2)
            (arrayHeap LP64 [] 3 4 (List.replicate 12 none) []) ∧
      ∃ sto, ∀ i, i < 3 →
        loadSlot (Handle.slot 0 2) i
            (arrayHeap LP64 [] 3 4 (List.replicate 12 (none : Option Int)) [])
          = Outcome.ok (Ptr.elem sto (i * 4))
              (arrayHeap LP64 [] 3 4 (List.replicate 12 (none : Option Int)) []) :=
  have h := Create2DArray_row_addresses LP64 3 3 4 (⟨[], [true, true]⟩ : Heap Int)
    (arrayHeap LP64 [] 3 4 (List.replicate 12 none) []) 0 2
    (by decide) (by decide) (by decide)
  ⟨by decide, h.elim fun sto hs => hs.elim fun _ ht =>
    ⟨sto, fun i hi => ((ht.2.2.2 (by decide)).2.1 i hi).1⟩⟩

/-- C3 (as stated) fails: on `LP64`, `Create2DArray(4, 2^63)` succeeds, and since `2^63`
doubles are a multiple of `2^64` bytes, `h[1]` is the same address as `h[0]`: `h[1]`
minus `h[0]` is 0 elements, not `cols`. -/
theorem Create2DArray_row_addresses_counterexample :
    Create2DArray LP64 4 4 9223372036854775808 (⟨[], [true, true]⟩ : Heap Int)
        = Outcome.ok (Handle.slot 0 2) wrappedHeap ∧
      loadSlot (Handle.slot 0 2) 0 wrappedHeap = Outcome.ok (Ptr.elem 1 0) wrappedHeap ∧
      loadSlot (Handle.slot 0 2) 1 wrappedHeap = Outcome.ok (Ptr.elem 1 0) wrappedHeap ∧
      Ptr.diff (Ptr.elem 1 0) (Ptr.elem 1 0) = some 0 ∧
      Ptr.diff (Ptr.elem 1 0) (Ptr.elem 1 0) ≠ some ((9223372036854775808 : Nat) : Int) := by
  decide

/-- C4 (amended): let `Create2DArray(rows, cols)` succeed with handle `h`, with
`rows * cols` not overflowing `size_t`, and let any sequence of element assignments
through `h` have run. Then for every valid position `(r, c)` the assignment
`h[r][c] = v` is defined, reading `h[r][c]` afterwards yields `v`, and at every other
valid position the read yields what it yielded before; the element addresses of
distinct valid positions are distinct. -/
theorem Create2DArray_write_read {D : Type} (P : Platform)
    (fuel rows cols : Nat) (h0 h1 h2 : Heap D) (b o : Nat)
    (hr : rows < P.sizeMod) (hc : cols < P.sizeMod) (hov : rows * cols < P.sizeMod)
    (hok : Create2DArray P fuel rows cols h0 = Outcome.ok (Handle.slot b o) h1)
    (ws : List (Int × Int × D))
    (hws : storeElems P (Handle.slot b o) ws h1 = Outcome.ok () h2)
    (r c : Nat) (hrr : r < rows) (hcc : c < cols) (v : D) :
    ∃ h3, storeElem P (Handle.slot b o) (r : Int) (c : Int) v h2 = Outcome.ok () h3 ∧
      loadElem P (Handle.slot b o) (r : Int) (c : Int) h3 = Outcome.ok v h3 ∧
      (∀ r' c' : Nat, r' < rows → c' < cols → (r', c') ≠ (r, c) →
        (loadElem P (Handle.slot b o) (r' : Int) (c' : Int) h3).value?
          = (loadElem P (Handle.slot b o) (r' : Int) (c' : Int) h2).value?) ∧
      (∀ r' c' : Nat, r' < rows → c' < cols → (r', c') ≠ (r, c) →
        ∃ p q, elemAddr P (Handle.slot b o) (r : Int) (c : Int) h2 = Outcome.ok p h2 ∧
          elemAddr P (Handle.slot b o) (r' : Int) (c' : Int) h2 = Outcome.ok q h2 ∧
          p ≠ q) := by
  obtain ⟨hr0, hc0, _, _, hb, ho, r2, _, hh⟩ :=
    Create2DArray_ok_inv P fuel rows cols h0 h1 b o hr hc hok
  obtain ⟨_, hsize⟩ := Create2DArray_ok_sizes P fuel rows cols h0 h1 b o hr hc hok
  subst hb ho hh
  obtain ⟨S, hlen, rfl⟩ := storeElems_array_inv P h0.blocks rows cols r2 ws _ h2 hws
  rw [List.length_replicate, Nat.mod_eq_of_lt hov] at hlen
  rw [Nat.mod_eq_of_lt hov] at hsize
  have hE : rows * cols < P.elemMod :=
    lt_elemMod P (rows * cols) (Nat.mul_pos hr0 hc0) hsize
  have hpos := position_lt rows cols r c hrr hcc
  refine ⟨arrayHeap P h0.blocks rows cols (S.set (r * cols + c) (some v)) r2, ?_, ?_, ?_, ?_⟩
  · rw [storeElem_valid P h0.blocks rows cols S r2 r c v hE hrr hcc, if_pos (by omega)]
  · rw [loadElem_valid P h0.blocks rows cols _ r2 r c hE hrr hcc,
      List.getElem?_set_eq_of_lt (some v) (by omega)]
  · intro r' c' hr' hc' hne
    have hidx : r * cols + c ≠ r' * cols + c' := by
      intro he
      obtain ⟨e1, e2⟩ := position_inj cols r c r' c' hcc hc' he
      exact hne (by rw [e1, e2])
    rw [loadElem_valid P h0.blocks rows cols _ r2 r' c' hE hr' hc',
      loadElem_valid P h0.blocks rows cols _ r2 r' c' hE hr' hc',
      List.getElem?_set_ne hidx]
    cases hS : S[r' * cols + c']? with
    | none => rfl
    | some x => cases x <;> rfl
  · intro r' c' hr' hc' hne
    refine ⟨_, _, elemAddr_valid P h0.blocks rows cols S r2 r c hE hrr hcc,
      elemAddr_valid P h0.blocks rows cols S r2 r' c' hE hr' hc', ?_⟩
    intro he
    injection he with _ e
    obtain ⟨e1, e2⟩ := position_inj cols r c r' c' hcc hc' e
    exact hne (by rw [e1, e2])

/-- Witness for C4 (amended): a 3 x 4 array on a 64-bit platform, first assigned at
`(0, 1)`, then at `(2, 3)`; the read at `(2, 3)` yields the value assigned there. -/
theorem Create2DArray_write_read_witness :
    Create2DArray LP64 3 3 4 (⟨[], [true, true]⟩ : Heap Int)
        = Outcome.ok (Handle.slot 0 2)
            (arrayHeap LP64 [] 3 4 (List.replicate 12 none) []) ∧
      ∃ h3, storeElem LP64 (Handle.slot 0 2) 2 3 (7 : Int)
            (arrayHeap LP64 [] 3 4 ((List.replicate 12 none).set 1 (some 5)) [])
          = Outcome.ok () h3 ∧
        loadElem LP64 (Handle.slot 0 2) 2 3 h3 = Outcome.ok 7 h3 :=
  have h := Create2DArray_write_read LP64 3 3 4 (⟨[], [true, true]⟩ : Heap Int)
    (arrayHeap LP64 [] 3 4 (List.replicate 12 none) [])
    (arrayHeap LP64 [] 3 4 ((List.replicate 12 none).set 1 (some 5)) []) 0 2
    (by decide) (by decide) (by decide) (by decide) [(0, 1, 5)] (by decide)
    2 3 (by decide) (by decide) 7
  ⟨by decide, h.imp fun _ hs => ⟨hs.1, hs.2.1⟩⟩

/-- C4 (as stated) fails: on `LP64`, `Create2DArray(4, 2^63)` succeeds with a storage
block of no element, so the assignment at the valid position `(0, 0)` is an access
outside the block, and the valid positions `(0, 0)` and `(2, 0)` have the same element
address. -/
theorem Create2DArray_write_read_counterexample :
    Create2DArray LP64 4 4 9223372036854775808 (⟨[], [true, true]⟩ : Heap Int)
        = Outcome.ok (Handle.slot 0 2) wrappedHeap ∧
      storeElem LP64 (Handle.slot 0 2) 0 0 (1 : Int) wrappedHeap = Outcome.undefined ∧
      elemAddr LP64 (Handle.slot 0 2) 0 0 wrappedHeap = Outcome.ok (Ptr.elem 1 0) wrappedHeap ∧
      elemAddr LP64 (Handle.slot 0 2) 2 0 wrappedHeap
        = Outcome.ok (Ptr.elem 1 0) wrappedHeap := by
  decide
/-- C5 (the code does not do this): `Create2DArray(3, 4)` with the index block granted
and the storage block refused returns `NULL` while the index block, block 0, is still
allocated: the heap had no live block before the call and has one after it. -/
theorem Create2DArray_storage_failure_leaks :
    Create2DArray LP64 3 3 4 (⟨[], [true, false]⟩ : Heap Int)
        = Outcome.ok Handle.null
            ⟨[some (Block.slots [some (Ptr.raw 3), some (Ptr.raw 4), none, none, none])],
              []⟩ ∧
      Heap.live (⟨[], [true, false]⟩ : Heap Int) = [] ∧
      Heap.live (⟨[some (Block.slots [some (Ptr.raw 3), some (Ptr.raw 4), none, none,
        none])], []⟩ : Heap Int) = [0] := by
  decide

/-- C6 (amended): after a successful `Create2DArray` with handle `h`, and after any
sequence of element assignments through `h` that stay inside the storage block,
`Delete2DArray(h)` completes and releases exactly the storage block, whose address is
the one stored at `h[0]`, and the index block, which starts at `h - 2`; the blocks that
are live afterwards are those that were live before the creation. When `rows * cols`
does not overflow `size_t`, every sequence of assignments at valid positions is such a
sequence. -/
theorem Delete2DArray_releases_both {D : Type} (P : Platform)
    (fuel rows cols : Nat) (h0 h1 : Heap D) (b o : Nat)
    (hr : rows < P.sizeMod) (hc : cols < P.sizeMod)
    (hok : Create2DArray P fuel rows cols h0 = Outcome.ok (Handle.slot b o) h1) :
    (∀ (ws : List (Int × Int × D)) (h2 : Heap D),
      storeElems P (Handle.slot b o) ws h1 = Outcome.ok () h2 →
      ∃ sto h3, loadSlot (Handle.slot b o) 0 h2 = Outcome.ok (Ptr.elem sto 0) h2 ∧
        Handle.sub (Handle.slot b o) 2 h2 = Outcome.ok (Handle.slot b 0) h2 ∧
        Delete2DArray (Handle.slot b o) h2 = Outcome.ok () h3 ∧
        h3.blocks = (h2.blocks.set sto none).set b none ∧
        h3.oracle = h2.oracle ∧
        h2.live = h0.live ++ [b, sto] ∧
        h3.live = h0.live) ∧
    (rows * cols < P.sizeMod →
      ∀ ws : List (Int × Int × D),
        (∀ w ∈ ws, 0 ≤ w.1 ∧ w.1 < (rows : Int) ∧ 0 ≤ w.2.1 ∧ w.2.1 < (cols : Int)) →
        ∃ h2, storeElems P (Handle.slot b o) ws h1 = Outcome.ok () h2) := by
  obtain ⟨hr0, hc0, _, _, hb, ho, r2, _, hh⟩ :=
    Create2DArray_ok_inv P fuel rows cols h0 h1 b o hr hc hok
  obtain ⟨_, hsize⟩ := Create2DArray_ok_sizes P fuel rows cols h0 h1 b o hr hc hok
  subst hb ho hh
  constructor
  · intro ws h2 hws
    obtain ⟨S, _, rfl⟩ := storeElems_array_inv P h0.blocks rows cols r2 ws _ h2 hws
    have hbase := loadRow_array P h0.blocks rows cols S r2 0 hr0
    simp only [Nat.zero_mul, Nat.zero_mod] at hbase
    refine ⟨h0.blocks.length + 1, ⟨h0.blocks ++ [none, none], r2⟩, hbase,
      by simp [Handle.sub], Delete2DArray_array P h0.blocks rows cols S r2 hr0, ?_, rfl,
      ?_, ?_⟩
    · simp only [arrayHeap, set_append_cons_succ, set_append_cons_length]
    · exact live_arrayHeap P h0.blocks rows cols S r2 h0.oracle
    · exact live_released h0.blocks r2 h0.oracle
  · intro hov ws hvalid
    rw [Nat.mod_eq_of_lt hov] at hsize
    have hE : rows * cols < P.elemMod :=
      lt_elemMod P (rows * cols) (Nat.mul_pos hr0 hc0) hsize
    obtain ⟨S', _, hrun⟩ := storeElems_valid P h0.blocks rows cols r2 hE ws hvalid
      (List.replicate (rows * cols % P.sizeMod) none)
      (by rw [List.length_replicate, Nat.mod_eq_of_lt hov])
    exact ⟨_, hrun⟩

/-- Witness for C6 (amended): a 3 x 4 array on a 64-bit platform, assigned at `(0, 1)`
and then deleted. -/
theorem Delete2DArray_releases_both_witness :
    Create2DArray LP64 3 3 4 (⟨[], [true, true]⟩ : Heap Int)
        = Outcome.ok (Handle.slot 0 2)
            (arrayHeap LP64 [] 3 4 (List.replicate 12 none) []) ∧
      storeElems LP64 (Handle.slot 0 2) [(0, 1, 5)]
          (arrayHeap LP64 [] 3 4 (List.replicate 12 (none : Option Int)) [])
        = Outcome.ok ()
            (arrayHeap LP64 [] 3 4 ((List.replicate 12 none).set 1 (some 5)) []) ∧
      ∃ h3, Delete2DArray (Handle.slot 0 2)
            (arrayHeap LP64 [] 3 4 ((List.replicate 12 (none : Option Int)).set 1 (some 5)) [])
          = Outcome.ok () h3 ∧
        h3.live = [] :=
  have h := Delete2DArray_releases_both LP64 3 3 4 (⟨[], [true, true]⟩ : Heap Int)
    (arrayHeap LP64 [] 3 4 (List.replicate 12 none) []) 0 2
    (by decide) (by decide) (by decide)
  ⟨by decide, by decide,
    (h.1 [(0, 1, 5)]
      (arrayHeap LP64 [] 3 4 ((List.replicate 12 none).set 1 (some 5)) [])
      (by decide)).elim fun _ hs => hs.imp fun _ ht => ⟨ht.2.2.1, ht.2.2.2.2.2.2⟩⟩

/-- C6 (as stated) fails: on `LP64`, `Create2DArray(4, 2^63)` succeeds with a storage
block of no element; the assignment at the valid position `(0, 0)` is then an access
outside the block, and creation, that assignment and `Delete2DArray` in sequence have no
defined result, so nothing is guaranteed about the blocks that are live afterwards. -/
theorem Delete2DArray_after_write_counterexample :
    Create2DArray LP64 4 4 9223372036854775808 (⟨[], [true, true]⟩ : Heap Int)
        = Outcome.ok (Handle.slot 0 2) wrappedHeap ∧
      storeElems LP64 (Handle.slot 0 2) [(0, 0, 1)] wrappedHeap = Outcome.undefined ∧
      ((Create2DArray LP64 4 4 9223372036854775808 (⟨[], [true, true]⟩ : Heap Int)).bind
        fun h heap =>
          (storeElems LP64 h [(0, 0, 1)] heap).bind fun _ heap => Delete2DArray h heap)
        = Outcome.undefined := by
  decide

/-- C10: let `rows > 0` and `cols > 0` be such that neither `rows + 2` nor
`rows * cols` overflows `size_t`, and let `Create2DArray(rows, cols)` succeed with
handle `h`. (i) The index block has `rows + 2` slots and every one of them, and nothing
else, has been stored to; and whenever both allocations are granted and the budget is
at least `rows`, the call completes with a handle, so that none of its checked accesses
is out of bounds. (ii) Every `h[i]`, `i < rows`, is an address `base + off` of
the storage block with `off + cols` at most its length `rows * cols`, and every
`&h[r][c]` with `r < rows`, `c < cols` is the address of an element inside the storage
block. (iii) Entered in the state that the statements before it produce, the loop
completes after exactly `rows - 1` executions of its body, for every budget of at
least `rows` tests, and leaves the heap that `Create2DArray` returns. -/
theorem Create2DArray_memory_safe {D : Type} (P : Platform)
    (fuel rows cols : Nat) (h0 h1 : Heap D) (b o : Nat)
    (hr0 : 0 < rows) (hc0 : 0 < cols)
    (hr : rows + 2 < P.sizeMod) (hov : rows * cols < P.sizeMod)
    (hok : Create2DArray P fuel rows cols h0 = Outcome.ok (Handle.slot b o) h1) :
    (∃ cells, h1.blocks[b]? = some (some (Block.slots cells)) ∧
      cells.length = rows + 2 ∧
      ∀ j, j < rows + 2 → ∃ v, cells[j]? = some (some v)) ∧
    (∀ (blocks : List (Option (Block D))) (rest : List Bool) (f : Nat), rows ≤ f →
      ∃ h', Create2DArray P f rows cols ⟨blocks, true :: true :: rest⟩
        = Outcome.ok (Handle.slot blocks.length 2) h') ∧
    (∃ sto S, h1.blocks[sto]? = some (some (Block.doubles S)) ∧
      S.length = rows * cols ∧
      (∀ i, i < rows → ∃ off,
        loadSlot (Handle.slot b o) i h1 = Outcome.ok (Ptr.elem sto off) h1 ∧
        off + cols ≤ S.length) ∧
      (∀ r c : Nat, r < rows → c < cols → ∃ j,
        elemAddr P (Handle.slot b o) (r : Int) (c : Int) h1
          = Outcome.ok (Ptr.elem sto j) h1 ∧
        j < S.length)) ∧
    (∃ hL, Create2DArray_setup P rows cols h0 = Outcome.ok (Handle.slot b o) hL ∧
      rows ≤ fuel ∧
      ∀ f, rows ≤ f →
        rowLoop P rows cols (Handle.slot b o) f 1 cols 0 hL = Outcome.ok (rows - 1) h1) := by
  have hc : cols < P.sizeMod := by
    have : 1 * cols ≤ rows * cols := Nat.mul_le_mul_right cols hr0
    omega
  obtain ⟨_, _, _, hfuel, hb, ho, r2, horc, hh⟩ :=
    Create2DArray_ok_inv P fuel rows cols h0 h1 b o (by omega) hc hok
  obtain ⟨hs1, hs2⟩ := Create2DArray_ok_sizes P fuel rows cols h0 h1 b o (by omega) hc hok
  subst hb ho hh
  have hE : rows * cols < P.elemMod := by
    have hsize := hs2
    rw [Nat.mod_eq_of_lt hov] at hsize
    exact lt_elemMod P (rows * cols) (Nat.mul_pos hr0 hc0) hsize
  refine ⟨⟨_, getElem?_append_cons_length _ _ _,
      indexCells_length P rows cols _ rows (Nat.le_refl _), ?_⟩,
    fun blocks rest f hf =>
      ⟨_, Create2DArray_ok P f rows cols blocks rest hr0 hc0 hr hc hs1 hs2 hf⟩,
    ⟨h0.blocks.length + 1, _, getElem?_append_cons_succ _ _ _ _, ?_, ?_, ?_⟩, ?_⟩
  · intro j hj
    rcases Nat.lt_or_ge j 2 with hj2 | hj2
    · rcases Nat.lt_or_ge j 1 with hj1 | hj1
      · have : j = 0 := by omega
        subst this
        exact ⟨_, indexCells_hidden0 P rows cols _ rows⟩
      · have : j = 1 := by omega
        subst this
        exact ⟨_, indexCells_hidden1 P rows cols _ rows⟩
    · obtain ⟨i, rfl⟩ : ∃ i, j = 2 + i := ⟨j - 2, by omega⟩
      exact ⟨_, indexCells_row P rows cols _ rows i (by omega)⟩
  · rw [List.length_replicate, Nat.mod_eq_of_lt hov]
  · intro i hi
    refine ⟨i * cols, ?_, ?_⟩
    · rw [loadRow_array P h0.blocks rows cols _ r2 i hi, row_mod P rows cols i hE hi]
    · rw [List.length_replicate, Nat.mod_eq_of_lt hov]
      exact row_offset_le rows cols i hi
  · intro r c hrr hcc
    refine ⟨r * cols + c, ?_, ?_⟩
    · rw [elemAddr_valid P h0.blocks rows cols _ r2 r c hE hrr hcc]
    · rw [List.length_replicate, Nat.mod_eq_of_lt hov]
      exact position_lt rows cols r c hrr hcc
  · obtain ⟨blocks, oracle⟩ := h0
    simp only at horc
    subst horc
    refine ⟨_, Create2DArray_setup_ok P rows cols blocks r2 hr0 hc0 hr hs1 hs2, hfuel, ?_⟩
    intro f hf
    have hloop := rowLoop_eq (D := D) P rows cols (by omega) blocks
      [some (Block.doubles (List.replicate (rows * cols % P.sizeMod) none))] r2
      (blocks.length + 1) f 1 0 (Nat.le_refl 1) hr0
    rw [Nat.one_mul, Nat.mod_eq_of_lt hc, if_pos (by omega), Nat.zero_add] at hloop
    rw [hloop]
    rfl

/-- Witness for C10: a 3 x 4 array on a 64-bit platform; the loop runs twice. -/
theorem Create2DArray_memory_safe_witness :
    Create2DArray LP64 3 3 4 (⟨[], [true, true]⟩ : Heap Int)
        = Outcome.ok (Handle.slot 0 2)
            (arrayHeap LP64 [] 3 4 (List.replicate 12 none) []) ∧
      ∃ hL, Create2DArray_setup LP64 3 4 (⟨[], [true, true]⟩ : Heap Int)
          = Outcome.ok (Handle.slot 0 2) hL ∧
        rowLoop LP64 3 4 (Handle.slot 0 2) 3 1 4 0 hL
          = Outcome.ok 2 (arrayHeap LP64 [] 3 4 (List.replicate 12 none) []) :=
  have h := Create2DArray_memory_safe LP64 3 3 4 (⟨[], [true, true]⟩ : Heap Int)
    (arrayHeap LP64 [] 3 4 (List.replicate 12 none) []) 0 2
    (by decide) (by decide) (by decide) (by decide) (by decide)
  ⟨by decide, h.2.2.2.imp fun _ hs => ⟨hs.1, hs.2.2 3 (by decide)⟩⟩
/-- C7: on `size_t` arguments, `Create2DArray` returns `NULL` exactly when `rows` is 0,
or `cols` is 0, or the allocation of the index block throws, or the index block is
obtained, its two hidden slots are stored and the allocation of the storage block
throws. `bad_alloc` never leaves `Create2DArray`. When `rows > 0`, `cols > 0` and both
allocations succeed, `NULL` is not returned, and with a loop budget of at least `rows`
a handle is returned. -/
theorem Create2DArray_null_iff {D : Type} (P : Platform) (fuel rows cols : Nat)
    (h0 : Heap D) (hr : rows < P.sizeMod) (hc : cols < P.sizeMod) :
    ((∃ h1, Create2DArray P fuel rows cols h0 = Outcome.ok Handle.null h1) ↔
      (rows = 0 ∨ cols = 0 ∨
        (∃ h', newPtrArray P ((rows + 2) % P.sizeMod) h0 = Outcome.thrown h') ∨
        (∃ ara hA hB hC,
          newPtrArray P ((rows + 2) % P.sizeMod) h0 = Outcome.ok ara hA ∧
          storeSlot ara 0 (Ptr.raw rows) hA = Outcome.ok () hB ∧
          storeSlot ara 1 (Ptr.raw cols) hB = Outcome.ok () hC ∧
          ∃ h', newDoubleArray P (rows * cols % P.sizeMod) hC = Outcome.thrown h'))) ∧
    (∀ h', Create2DArray P fuel rows cols h0 ≠ Outcome.thrown h') ∧
    (0 < rows → 0 < cols →
      (∃ ara hA hB hC,
        newPtrArray P ((rows + 2) % P.sizeMod) h0 = Outcome.ok ara hA ∧
        storeSlot ara 0 (Ptr.raw rows) hA = Outcome.ok () hB ∧
        storeSlot ara 1 (Ptr.raw cols) hB = Outcome.ok () hC ∧
        ∃ buf hD, newDoubleArray P (rows * cols % P.sizeMod) hC = Outcome.ok buf hD) →
      (∀ h1, Create2DArray P fuel rows cols h0 ≠ Outcome.ok Handle.null h1) ∧
      (rows ≤ fuel →
        ∃ b o h1, Create2DArray P fuel rows cols h0 = Outcome.ok (Handle.slot b o) h1)) := by
  obtain ⟨blocks, oracle⟩ := h0
  rw [Create2DArray_eq P fuel rows cols _ hr hc]
  unfold createSpec
  by_cases hz : rows = 0 ∨ cols = 0
  · rw [if_pos hz]
    refine ⟨⟨fun _ => ?_, fun _ => ⟨_, rfl⟩⟩, ?_, ?_⟩
    · rcases hz with h | h
      · exact Or.inl h
      · exact Or.inr (Or.inl h)
    · intro h' hh; cases hh
    · intro h1 h2; omega
  · rw [if_neg hz]
    have hr0 : 0 < rows := by omega
    have hc0 : 0 < cols := by omega
    by_cases hbig : P.sizeMod ≤ (rows + 2) % P.sizeMod * P.sizeofPtr
    · simp [newPtrArray, hz, hbig]
    · rw [if_neg hbig]
      match oracle with
      | [] => simp [newPtrArray, hz, hbig]
      | false :: r => simp [newPtrArray, hz, hbig]
      | true :: r =>
        rw [hidden_slots_stored, hidden_slots_stored]
        have h1 : ¬ ∃ h', newPtrArray P ((rows + 2) % P.sizeMod)
            (⟨blocks, true :: r⟩ : Heap D) = Outcome.thrown h' := by
          rintro ⟨h', hh⟩
          simp [newPtrArray, hbig] at hh
        by_cases hov : P.sizeMod ≤ rows + 2
        · have hL : (rows + 2) % P.sizeMod = rows + 2 - P.sizeMod := by
            rw [Nat.mod_eq_sub_mod hov]
            exact Nat.mod_eq_of_lt (by omega)
          have hlt : ¬ 2 ≤ (rows + 2) % P.sizeMod := by omega
          simp [hz, hov, hlt, h1]
        · have hL : 2 ≤ (rows + 2) % P.sizeMod := by
            rw [Nat.mod_eq_of_lt (by omega)]; omega
          by_cases hbig2 : P.sizeMod ≤ rows * cols % P.sizeMod * sizeofDouble
          · simp [newDoubleArray, hz, hov, hL, h1, hbig, hbig2]
          · match r with
            | [] => simp [newDoubleArray, hz, hov, hL, h1, hbig, hbig2]
            | false :: r2 => simp [newDoubleArray, hz, hov, hL, h1, hbig, hbig2]
            | true :: r2 =>
              by_cases hf : rows ≤ fuel
              · simp [newDoubleArray, hz, hov, hL, hf, h1, hbig, hbig2]
              · simp [newDoubleArray, hz, hov, hL, hf, h1, hbig, hbig2]

/-- Witness for C7: `Create2DArray(3, 4)` on a 64-bit platform whose allocator grants
the index block and refuses the storage block returns `NULL`. -/
theorem Create2DArray_null_iff_witness :
    ∃ h1, Create2DArray LP64 3 3 4 (⟨[], [true, false]⟩ : Heap Int)
      = Outcome.ok Handle.null h1 :=
  (Create2DArray_null_iff LP64 3 3 4 (⟨[], [true, false]⟩ : Heap Int)
    (by decide) (by decide)).1.2
    (Or.inr (Or.inr (Or.inr ⟨_, _, _, _, rfl, rfl, rfl, _, rfl⟩)))
/-- C8: on a platform whose `size_t` and `int` have at least 16 bits, with a loop
budget of at least 13 tests: when `Create2DArray(12, 9)` succeeds, `main` prints
"dAra created.", the row count 12, the column count 9, then 12 lines, line `row` being
the 9 values `row * 10 + col`, `col = 0 .. 8`, each followed by a space, and the line
end; it exits with status 0, the array released. When `Create2DArray(12, 9)` returns
`NULL`, `main` prints one line on `cerr` and exits with status 1. -/
theorem main_demo (P : Platform) (hs : 16 ≤ P.sizeBits) (hi : 16 ≤ P.intBits)
    (fuel : Nat) (hfuel : 13 ≤ fuel) (h0 : Heap Int) :
    (∀ b o h1, Create2DArray P fuel 12 9 h0 = Outcome.ok (Handle.slot b o) h1 →
      ∃ h2, main P fuel h0
          = Outcome.ok (0,
              [Out.cout_str "dAra created.", Out.cout_endl,
               Out.cout_str "Rows: ", Out.cout_int 12, Out.cout_endl,
               Out.cout_str "Cols: ", Out.cout_int 9, Out.cout_endl] ++
              (List.range 12).flatMap fun row =>
                ((List.range 9).flatMap fun col =>
                  [Out.cout_double ((row : Int) * 10 + (col : Int)), Out.cout_char ' '])
                ++ [Out.cout_endl]) h2 ∧
        h2.live = h0.live) ∧
    (∀ h1, Create2DArray P fuel 12 9 h0 = Outcome.ok Handle.null h1 →
      main P fuel h0
        = Outcome.ok (1, [Out.cerr_str "Could not allocate memory.", Out.cerr_endl]) h1) := by
  have hM : 65536 ≤ P.sizeMod := by
    have : 2 ^ 16 ≤ 2 ^ P.sizeBits := Nat.pow_le_pow_right (by decide) hs
    simpa [Platform.sizeMod] using this
  have hI : 32768 ≤ 2 ^ (P.intBits - 1) := by
    have : 2 ^ 15 ≤ 2 ^ (P.intBits - 1) := Nat.pow_le_pow_right (by decide) (by omega)
    simpa using this
  constructor
  · intro b o h1 hok
    obtain ⟨_, _, _, _, hb, ho, r2, _, hh⟩ :=
      Create2DArray_ok_inv P fuel 12 9 h0 h1 b o (by omega) (by omega) hok
    subst hb ho
    have h108 : 12 * 9 % P.sizeMod = 108 := Nat.mod_eq_of_lt (by omega)
    rw [h108] at hh
    subst hh
    have hR : P.toInt 12 = ((12 : Nat) : Int) := toInt_small P 12 (by omega)
    have hC : P.toInt 9 = ((9 : Nat) : Int) := toInt_small P 9 (by omega)
    have hE : 12 * 9 < P.elemMod := by
      unfold Platform.elemMod sizeofDouble
      omega
    obtain ⟨S, hlen, hfill, hrun⟩ := fillRows_array P h0.blocks 12 9 r2 hR hC hE
      fuel (by omega) fuel 0 (List.replicate 108 none) (by omega) (by omega) (by simp)
      (by intro r' c' _ hcase; omega)
    have hshow := showRows_array P h0.blocks 12 9 r2 hR hC hE S hfill fuel
      (by omega) fuel 0
      [Out.cout_str "dAra created.", Out.cout_endl,
       Out.cout_str "Rows: ", Out.cout_int (P.toInt 12), Out.cout_endl,
       Out.cout_str "Cols: ", Out.cout_int (P.toInt 9), Out.cout_endl]
      (by omega) (by omega)
    have hzero : ((0 : Nat) : Int) = 0 := rfl
    rw [hzero] at hrun hshow
    refine ⟨⟨h0.blocks ++ [none, none], r2⟩, ?_, live_released h0.blocks r2 h0.oracle⟩
    unfold main
    rw [hok]
    simp only [Outcome.bind_ok]
    rw [if_neg (by simp), GetRows_array]
    simp only [Outcome.bind_ok]
    rw [GetCols_array]
    simp only [Outcome.bind_ok]
    rw [hrun]
    simp only [Outcome.bind_ok]
    rw [hshow]
    simp only [Outcome.bind_ok]
    rw [Delete2DArray_array P h0.blocks 12 9 S r2 (by omega)]
    simp only [Outcome.bind_ok, hR, hC]
    have hgrid : gridOutput 12 9 0
        = (List.range 12).flatMap fun row =>
            ((List.range 9).flatMap fun col =>
              [Out.cout_double ((row : Int) * 10 + (col : Int)), Out.cout_char ' '])
            ++ [Out.cout_endl] := by
      simp only [gridOutput, rowOutput, List.range_eq_range', Nat.sub_zero]
    rw [hgrid]
    rfl
  · intro h1 hok
    unfold main
    rw [hok]
    simp

/-- Witness for C8: the run of `main` on a 64-bit platform from the empty heap, both
allocations granted. -/
theorem main_demo_witness :
    ∃ h2, main LP64 13 ⟨[], [true, true]⟩
        = Outcome.ok (0,
            [Out.cout_str "dAra created.", Out.cout_endl,
             Out.cout_str "Rows: ", Out.cout_int 12, Out.cout_endl,
             Out.cout_str "Cols: ", Out.cout_int 9, Out.cout_endl] ++
            (List.range 12).flatMap fun row =>
              ((List.range 9).flatMap fun col =>
                [Out.cout_double ((row : Int) * 10 + (col : Int)), Out.cout_char ' '])
              ++ [Out.cout_endl]) h2 ∧
      h2.live = [] :=
  (main_demo LP64 (by decide) (by decide) 13 (by decide) ⟨[], [true, true]⟩).1 0 2
    (arrayHeap LP64 [] 12 9 (List.replicate 108 none) []) (by decide)

end ACCPgm01
